import Mathlib

/-!
# Verification of the Iridas `.cube` LUT reader / writer

A shallow embedding of `colour/io/luts/iridas_cube.py`
(`read_LUT_IridasCube` and `write_LUT_IridasCube`) and proofs of the
specification's testable properties about them.

Modelling conventions:

* Python `str` values are modelled as `List Char`.
* A file is modelled as the list of its lines (what `readlines` produces,
  with the trailing newline already accounted for by the stripping the
  reader performs; the writer emits a list of lines, each of which it
  terminates with `"\n"` in the real code).
* Python/NumPy floating-point numbers are modelled as exact rationals
  (`ℚ`); fixed-point formatting `"{:0.df}"` is modelled as rounding to
  `d` decimal digits over `ℚ`.
* Raised exceptions are modelled with `Except String`; the error strings
  of `attest` calls are taken verbatim from the source.
-/

namespace IridasCube

/-- Python strings are modelled as lists of characters. -/
abbrev Str := List Char

/-- Shorthand turning a Lean string literal into the `List Char` model. -/
def str (s : String) : Str := s.data

/-- An RGB triple of (rational-modelled) floats. -/
abbrev Vec3 := ℚ × ℚ × ℚ

/-! ## Character classes and whitespace splitting (`str.strip`, `str.split`) -/

/-- The whitespace characters recognised by Python's `str.strip` /
`str.split` (ASCII subset). -/
def isWS (c : Char) : Bool :=
  c = ' ' || c = '\t' || c = '\n' || c = '\r' || c = '\x0b' || c = '\x0c'

/-- Model of Python `str.strip()`: drop leading and trailing whitespace. -/
def pyStrip (cs : Str) : Str :=
  ((cs.dropWhile isWS).reverse.dropWhile isWS).reverse

/-- Fuel-driven worker for `pySplit`; the fuel dominates the length of the
remaining input. -/
def pySplitAux : ℕ → Str → List Str
  | 0, _ => []
  | _, [] => []
  | fuel + 1, c :: cs =>
    if isWS c then pySplitAux fuel cs
    else
      (c :: cs.takeWhile (fun x => !isWS x)) ::
        pySplitAux fuel (cs.dropWhile (fun x => !isWS x))

/-- Model of Python `str.split()` with no argument: split on runs of
whitespace, discarding empty pieces. -/
def pySplit (cs : Str) : List Str := pySplitAux cs.length cs

/-- Model of Python `" ".join(tokens)`. -/
def joinSpace : List Str → Str
  | [] => []
  | [t] => t
  | t :: ts => t ++ ' ' :: joinSpace ts

/-- Model of the Python slice `s[1:-1]`: remove the first and the last
character (empty result on strings of length at most one). -/
def dropFirstLast (cs : Str) : Str := (cs.drop 1).dropLast

/-! ## Decimal digits: rendering and parsing -/

/-- The decimal digit character for `d < 10`. -/
def digitChar (d : ℕ) : Char := Char.ofNat (48 + d)

/-- Numeric value of a decimal digit character, `none` on other
characters. -/
def digitVal (c : Char) : Option ℕ :=
  if 48 ≤ c.toNat ∧ c.toNat ≤ 57 then some (c.toNat - 48) else none

/-- Fuel-driven rendering of a natural number in base 10, most significant
digit first.  Any fuel above the number itself yields the full digit
string. -/
def natDigitsAux : ℕ → ℕ → Str
  | 0, _ => []
  | fuel + 1, n =>
    if n < 10 then [digitChar n]
    else natDigitsAux fuel (n / 10) ++ [digitChar (n % 10)]

/-- Decimal digit string of a natural number (e.g. `natDigits 105 =
['1','0','5']`). -/
def natDigits (n : ℕ) : Str := natDigitsAux (n + 1) n

/-- Accumulating parser for a digit string; fails on the first non-digit
character. -/
def parseDigitsCore (acc : ℕ) : Str → Option ℕ
  | [] => some acc
  | c :: cs =>
    match digitVal c with
    | some d => parseDigitsCore (acc * 10 + d) cs
    | none => none

/-- Parse a non-empty string of decimal digits. -/
def parseDigits (cs : Str) : Option ℕ :=
  match cs with
  | [] => none
  | _ => parseDigitsCore 0 cs

/-! ## Float parsing and fixed-point formatting -/

/-- Modelled from the spec: `colour.utilities.as_float_array` (not under
`src/`) converts string tokens to floats, raising on malformed tokens
("all tokens parsed as floats", "malformed numeric tokens fail with a
ParseError").  We model the accepted numeric literals as an optional sign
followed by `digits`, `digits.digits`, `digits.` or `.digits`, the tokens
the codec itself produces and the spec describes; anything else is
malformed. -/
def parseUnsignedFloat (cs : Str) : Option ℚ :=
  let intPart := cs.takeWhile (fun c => (digitVal c).isSome)
  let rest := cs.dropWhile (fun c => (digitVal c).isSome)
  match rest with
  | [] =>
    match intPart with
    | [] => none
    | _ => (parseDigitsCore 0 intPart).map (fun n => (n : ℚ))
  | '.' :: frac =>
    if frac.all (fun c => (digitVal c).isSome) then
      if intPart = [] ∧ frac = [] then none
      else
        match parseDigitsCore 0 intPart, parseDigitsCore 0 frac with
        | some ip, some fp => some ((ip : ℚ) + (fp : ℚ) / (10 : ℚ) ^ frac.length)
        | _, _ => none
    else none
  | _ => none

/-- Parse a float token: optional sign, then an unsigned decimal literal. -/
def parseFloat (cs : Str) : Option ℚ :=
  if cs.headD ' ' = '-' then (parseUnsignedFloat cs.tail).map (fun q => -q)
  else if cs.headD ' ' = '+' then parseUnsignedFloat cs.tail
  else parseUnsignedFloat cs

/-- Modelled from the spec: `colour.utilities.as_int_scalar` (not under
`src/`), "size = integer value of next token": an optional sign followed
by decimal digits; anything else raises. -/
def parseIntToken (cs : Str) : Option ℤ :=
  if cs.headD ' ' = '-' then (parseDigits cs.tail).map (fun n => -(n : ℤ))
  else if cs.headD ' ' = '+' then (parseDigits cs.tail).map (fun n => (n : ℤ))
  else (parseDigits cs).map (fun n => (n : ℤ))

/-- The rational obtained by rounding `q` to `d` decimal digits. -/
def roundToDecimals (d : ℕ) (q : ℚ) : ℚ :=
  (round (q * (10 : ℚ) ^ d) : ℤ) / (10 : ℚ) ^ d

/-- Pad a digit string on the left with `'0'` up to width `d`. -/
def padZeros (d : ℕ) (cs : Str) : Str :=
  List.replicate (d - cs.length) '0' ++ cs

/-- The unsigned part of fixed-point formatting: the scaled magnitude `a`
printed with `d` fractional digits. -/
def fmtUnsigned (d a : ℕ) : Str :=
  if d = 0 then natDigits a
  else natDigits (a / 10 ^ d) ++ '.' :: padZeros d (natDigits (a % 10 ^ d))

/-- Model of Python's fixed-point formatting `"{:0.df}".format(q)` over
exact rationals: round `q` to `d` decimals and print sign, integer part
and exactly `d` fractional digits (no decimal point when `d = 0`).
Deviations from binary-float formatting (round-half-even at the float
level, the sign of negative zero) concern only the identity of the
rounded value, never the `d`-decimal shape. -/
def fmtFixed (d : ℕ) (q : ℚ) : Str :=
  (if round (q * (10 : ℚ) ^ d) < 0 then ['-'] else []) ++
    fmtUnsigned d (round (q * (10 : ℚ) ^ d)).natAbs

/-! ## The LUT data model

Modelled from the spec (§3 "DATA MODEL"): the `LUT1D`, `LUT3x1D`, `LUT3D`
and `LUTSequence` classes live in `colour/io/luts/lut.py` /
`sequence.py`, which are not under `src/`.  A 3x1D table has shape
`(size, 3)`; a 3D table has shape `(size, size, size, 3)` and is stored
here as its row-major (C-order) flattening together with `size`; the
domain is a list of 3-channel rows, implicit exactly when it has two rows
(`[min, max]`); a 1D table is a single channel with a one-channel
domain. -/

/-- A 1D LUT: one channel, scalar domain entries. -/
structure LUT1D where
  name : Str
  table : List ℚ
  domain : List ℚ
  comments : List Str
deriving DecidableEq, Repr

/-- A 3x1D LUT: table of shape `(size, 3)`. -/
structure LUT3x1D where
  name : Str
  table : List Vec3
  domain : List Vec3
  comments : List Str
deriving DecidableEq, Repr

/-- A 3D LUT: table of shape `(size, size, size, 3)`, stored as its
row-major flattening (`tableFlat.length = size ^ 3`; entry `(a, b, c)` at
index `a * size ^ 2 + b * size + c`). -/
structure LUT3D where
  name : Str
  size : ℕ
  tableFlat : List Vec3
  domain : List Vec3
  comments : List Str
deriving DecidableEq, Repr

/-- One of the three concrete LUT classes (the possible elements of a
`LUTSequence`). -/
inductive BaseLUT where
  | lut1D : LUT1D → BaseLUT
  | lut3x1D : LUT3x1D → BaseLUT
  | lut3D : LUT3D → BaseLUT
deriving DecidableEq, Repr

/-- A value passed as the `LUT` argument of `write_LUT_IridasCube`:
Python is dynamically typed, so beside the annotated
`LUT3x1D | LUT3D | LUTSequence` (with `LUT1D` also handled) any other
object can arrive; `other` models such a value, which fails every
`isinstance` test. -/
inductive WLUT where
  | base : BaseLUT → WLUT
  | sequence : List BaseLUT → WLUT
  | other : WLUT
deriving DecidableEq, Repr

/-- The default implicit domain `[[0, 0, 0], [1, 1, 1]]`. -/
def defaultDomain : List Vec3 := [(0, 0, 0), (1, 1, 1)]

/-- Modelled from the spec: `is_domain_explicit` (LUT classes are not
under `src/`) — "'implicit' domain is linear min/max per channel,
'explicit' domain supplies a value per sample"; a domain is implicit
exactly when it is the 2-row `[min, max]` form. -/
def LUT3x1D.is_domain_explicit (l : LUT3x1D) : Bool := l.domain.length ≠ 2

/-- Modelled from the spec: explicit-domain predicate of `LUT3D`, as for
`LUT3x1D`. -/
def LUT3D.is_domain_explicit (l : LUT3D) : Bool := l.domain.length ≠ 2

/-- Modelled from the spec: explicit-domain predicate of `LUT1D`. -/
def LUT1D.is_domain_explicit (l : LUT1D) : Bool := l.domain.length ≠ 2

/-- Modelled from the spec: `LUT.convert(LUT3x1D)` on a `LUT1D` (not
under `src/`) — "replicate the single channel's transfer function across
3 channels". -/
def LUT1D.toLUT3x1D (l : LUT1D) : LUT3x1D :=
  { name := l.name
    table := l.table.map (fun v => (v, v, v))
    domain := l.domain.map (fun v => (v, v, v))
    comments := l.comments }

/-! ## The writer: `write_LUT_IridasCube` -/

/-- `_format_array` from the source: format the three components of a row
with `decimals` fractional digits, separated by single spaces. -/
def formatArray (decimals : ℕ) (v : Vec3) : Str :=
  fmtFixed decimals v.1 ++ ' ' :: fmtFixed decimals v.2.1 ++ ' ' :: fmtFixed decimals v.2.2

/-- The writer's Fortran-order flattening
`LUT.table.reshape([-1, 3], order="F")` of a `(n, n, n, 3)` table stored
row-major: output row `i` is the entry at indices
`(i % n, i / n % n, i / n ^ 2)`. -/
def flattenTable3D (n : ℕ) (tableFlat : List Vec3) : List Vec3 :=
  (List.range (n ^ 3)).map fun i =>
    tableFlat.getD ((i % n) * n ^ 2 + (i / n % n) * n + i / n ^ 2) (0, 0, 0)

/-- The successful outcome of `write_LUT_IridasCube`: the lines written
to the file (each terminated by `"\n"` in the real code) and the Python
return value. -/
structure WriteSuccess where
  lines : List Str
  retval : Bool
deriving DecidableEq, Repr

/-- The lines the writer emits for a `LUT3x1D` that passed all
contract checks. -/
def lines3x1D (decimals : ℕ) (l : LUT3x1D) : List Str :=
  (str "TITLE \"" ++ l.name ++ ['\"']) ::
    l.comments.map (fun c => str "# " ++ c) ++
    (str "LUT_1D_SIZE " ++ natDigits l.table.length) ::
    (if l.domain = defaultDomain then []
     else [str "DOMAIN_MIN " ++ formatArray decimals (l.domain.getD 0 (0, 0, 0)),
           str "DOMAIN_MAX " ++ formatArray decimals (l.domain.getD 1 (0, 0, 0))]) ++
    l.table.map (formatArray decimals)

/-- The lines the writer emits for a `LUT3D` that passed all contract
checks (the size line uses `table.shape[0] = size`). -/
def lines3D (decimals : ℕ) (l : LUT3D) : List Str :=
  (str "TITLE \"" ++ l.name ++ ['\"']) ::
    l.comments.map (fun c => str "# " ++ c) ++
    (str "LUT_3D_SIZE " ++ natDigits l.size) ::
    (if l.domain = defaultDomain then []
     else [str "DOMAIN_MIN " ++ formatArray decimals (l.domain.getD 0 (0, 0, 0)),
           str "DOMAIN_MAX " ++ formatArray decimals (l.domain.getD 1 (0, 0, 0))]) ++
    (flattenTable3D l.size l.tableFlat).map (formatArray decimals)

/-- The body of `write_LUT_IridasCube` once the `LUTxD` value is
resolved: the `attest` contract checks in source order, then the emitted
lines.  The `match` models the `isinstance(LUTxD, (LUT3x1D, LUT3D))`
test (a `LUT1D` reaching this point — possible as the first element of a
sequence — fails it). -/
def writeResolved (LUTxD : BaseLUT) (decimals : ℕ) : Except String WriteSuccess :=
  match LUTxD with
  | .lut1D _ => .error "\"LUT\" must be a 1D, 3x1D or 3D \"LUT\"!"
  | .lut3x1D l =>
    if l.is_domain_explicit then .error "\"LUT\" domain must be implicit!"
    else if ¬(2 ≤ l.table.length ∧ l.table.length ≤ 65536) then
      .error "\"LUT\" size must be in domain [2, 65536]!"
    else .ok ⟨lines3x1D decimals l, true⟩
  | .lut3D l =>
    if l.is_domain_explicit then .error "\"LUT\" domain must be implicit!"
    else if ¬(2 ≤ l.size ∧ l.size ≤ 256) then
      .error "\"LUT\" size must be in domain [2, 256]!"
    else .ok ⟨lines3D decimals l, true⟩

/-- `write_LUT_IridasCube(LUT, path, decimals)`.  The first component
collects the `usage_warning` messages surfaced (non-fatal); the second is
the outcome: the written lines and return value, or the raised error.  A
`LUTSequence` contributes its first element unconverted (an empty one
raises `IndexError` at `LUT[0]`); a bare `LUT1D` is converted to 3x1D;
any other non-LUT object reaches the `isinstance` `attest` and fails
it. -/
def write_LUT_IridasCube (LUT : WLUT) (decimals : ℕ) :
    List Str × Except String WriteSuccess :=
  match LUT with
  | .sequence [] =>
    ([str "\"LUT\" is a \"LUTSequence\" instance was passed, using first sequence \"LUT\""],
     .error "IndexError: list index out of range")
  | .sequence (b :: _) =>
    ([str "\"LUT\" is a \"LUTSequence\" instance was passed, using first sequence \"LUT\""],
     writeResolved b decimals)
  | .base (.lut1D l) => ([], writeResolved (.lut3x1D l.toLUT3x1D) decimals)
  | .base b => ([], writeResolved b decimals)
  | .other => ([], .error "\"LUT\" must be a 1D, 3x1D or 3D \"LUT\"!")

/-! ## The reader: `read_LUT_IridasCube` -/

/-- The mutable scan state of `read_LUT_IridasCube`'s line loop, with the
source's initial values (`title` comes from `path_to_title(path)`, a
parameter of the model). -/
structure ReadState where
  title : Str
  domain_min : List ℚ
  domain_max : List ℚ
  dimensions : ℕ
  size : ℤ
  data : List (List Str)
  comments : List Str
deriving DecidableEq, Repr

/-- The initial scan state for a given title. -/
def initState (title : Str) : ReadState :=
  { title := title
    domain_min := [0, 0, 0]
    domain_max := [1, 1, 1]
    dimensions := 3
    size := 2
    data := []
    comments := [] }

/-- `as_float_array(tokens)` on a one-dimensional list of tokens: every
token must parse as a float. -/
def parseFloatList : List Str → Except String (List ℚ)
  | [] => .ok []
  | t :: ts =>
    match parseFloat t with
    | none => .error "ValueError: could not convert string to float"
    | some q =>
      match parseFloatList ts with
      | .ok qs => .ok (q :: qs)
      | .error e => .error e

/-- The reader's dispatch on the tokens of a non-blank, non-comment
line: the recognised directives, in source order, otherwise a data
row. -/
def procTokens (s : ReadState) (t0 : Str) (rest : List Str) :
    Except String ReadState :=
  if t0 = str "TITLE" then
    .ok { s with title := dropFirstLast (joinSpace rest) }
  else if t0 = str "DOMAIN_MIN" then
    match parseFloatList rest with
    | .ok v => .ok { s with domain_min := v }
    | .error e => .error e
  else if t0 = str "DOMAIN_MAX" then
    match parseFloatList rest with
    | .ok v => .ok { s with domain_max := v }
    | .error e => .error e
  else if t0 = str "LUT_1D_SIZE" then
    match rest with
    | [] => .error "IndexError: list index out of range"
    | t :: _ =>
      match parseIntToken t with
      | some n => .ok { s with dimensions := 2, size := n }
      | none => .error "ValueError: invalid literal for int"
  else if t0 = str "LUT_3D_SIZE" then
    match rest with
    | [] => .error "IndexError: list index out of range"
    | t :: _ =>
      match parseIntToken t with
      | some n => .ok { s with dimensions := 3, size := n }
      | none => .error "ValueError: invalid literal for int"
  else
    .ok { s with data := s.data ++ [t0 :: rest] }

/-- The body of one iteration of the reader's line loop, after the
`line = line.strip()` reassignment: skip blanks, collect comments,
dispatch on the first token, otherwise stack a data row. -/
def processStripped (s : ReadState) (l : Str) : Except String ReadState :=
  if l.length = 0 then .ok s
  else if l.headD ' ' = '#' then
    .ok { s with comments := s.comments ++ [pyStrip l.tail] }
  else
    match pySplit l with
    | [] => .error "IndexError: list index out of range"
    | t0 :: rest => procTokens s t0 rest

/-- One iteration of the reader's line loop: strip the raw line, then
process it. -/
def processLine (s : ReadState) (line : Str) : Except String ReadState :=
  processStripped s (pyStrip line)

/-- The reader's line loop over the whole file. -/
def scanLines (s : ReadState) : List Str → Except String ReadState
  | [] => .ok s
  | l :: ls =>
    match processLine s l with
    | .ok s' => scanLines s' ls
    | .error e => .error e

/-- Row-by-row conversion of the stacked data rows. -/
def parseRows : List (List Str) → Except String (List (List ℚ))
  | [] => .ok []
  | r :: rs =>
    match parseFloatList r with
    | .ok qs =>
      match parseRows rs with
      | .ok qss => .ok (qs :: qss)
      | .error e => .error e
    | .error e => .error e

/-- `table = as_float_array(data)` on the stacked data rows: NumPy first
requires a rectangular (homogeneous) nested sequence, then converts every
token. -/
def asFloatArray2D (data : List (List Str)) : Except String (List (List ℚ)) :=
  if data.all (fun r => r.length = (data.headD []).length) then parseRows data
  else .error "ValueError: inhomogeneous shape"

/-- `np.vstack([domain_min, domain_max])`: the two rows must have the
same length. -/
def vstack2 (a b : List ℚ) : Except String (List (List ℚ)) :=
  if a.length = b.length then .ok [a, b]
  else .error "ValueError: vstack shape mismatch"

/-- The result of `read_LUT_IridasCube`: a `LUT3x1D` or `LUT3D` instance
as the reader constructs it (the 3x1D table keeps whatever row width the
file had; the 3D table is the reshaped `(n, n, n, 3)` array, stored
row-major). -/
inductive ReadLUT where
  | lut3x1D (table : List (List ℚ)) (name : Str) (domain : List (List ℚ))
      (comments : List Str) : ReadLUT
  | lut3D (size : ℕ) (tableFlat : List Vec3) (name : Str) (domain : List (List ℚ))
      (comments : List Str) : ReadLUT
deriving DecidableEq, Repr

/-- The Fortran-order position, in the flat `(m, w)` source data, of the
destination cell whose row-major index in the `(n, n, n)` grid is `j`
(first destination index varying fastest). -/
def fortranPos (n j : ℕ) : ℕ :=
  j / n ^ 2 + (j / n % n) * n + (j % n) * n ^ 2

/-- The Fortran-order (column-major) enumeration of a rectangular table
of row width `w`. -/
def colMajorSeq (w : ℕ) (table : List (List ℚ)) : List ℚ :=
  (List.range w).flatMap fun j => table.map (fun r => r.getD j 0)

/-- `table.reshape([size, size, size, 3], order="F")` on a rectangular
`(m, w)` table: needs `m * w = 3 * size ^ 3`; the Fortran-order
enumeration of the source (down each column) fills the destination with
its first index varying fastest.  The result is the row-major flattening
of the `(n, n, n, 3)` destination. -/
def reshapeTable3D (table : List (List ℚ)) (size : ℤ) :
    Except String (List Vec3) :=
  if size < 0 then .error "ValueError: negative dimensions"
  else if table.length * (table.headD []).length ≠ 3 * size.toNat ^ 3 then
    .error "ValueError: cannot reshape array"
  else
    .ok ((List.range (size.toNat ^ 3)).map fun j =>
      ((colMajorSeq (table.headD []).length table).getD
          (fortranPos size.toNat j) 0,
       (colMajorSeq (table.headD []).length table).getD
          (fortranPos size.toNat j + size.toNat ^ 3) 0,
       (colMajorSeq (table.headD []).length table).getD
          (fortranPos size.toNat j + 2 * size.toNat ^ 3) 0))

/-- After the scan: stack the data rows into a float table, then build
the `LUT3x1D` (dimensions 2) or `LUT3D` (dimensions 3, with the
Fortran-order reshape) with the `vstack`ed domain. -/
def finalizeRead (s : ReadState) : Except String ReadLUT :=
  match asFloatArray2D s.data with
  | .error e => .error e
  | .ok table =>
    if s.dimensions = 2 then
      match vstack2 s.domain_min s.domain_max with
      | .ok dom => .ok (.lut3x1D table s.title dom s.comments)
      | .error e => .error e
    else
      match reshapeTable3D table s.size with
      | .error e => .error e
      | .ok t3 =>
        match vstack2 s.domain_min s.domain_max with
        | .ok dom => .ok (.lut3D s.size.toNat t3 s.title dom s.comments)
        | .error e => .error e

/-- `read_LUT_IridasCube(path)`: `title` is `path_to_title(path)`
(`colour.io.luts.common`, not under `src/`); `lines` are the file's
lines. -/
def read_LUT_IridasCube (title : Str) (lines : List Str) :
    Except String ReadLUT :=
  match scanLines (initState title) lines with
  | .ok s => finalizeRead s
  | .error e => .error e

/-! ## Auxiliary definitions used by the verification -/

/-- A `Vec3` as the reader sees it after parsing a data row. -/
def vec3Row (v : Vec3) : List ℚ := [v.1, v.2.1, v.2.2]

/-- Componentwise rounding of a `Vec3` to `d` decimals. -/
def roundVec3 (d : ℕ) (v : Vec3) : Vec3 :=
  (roundToDecimals d v.1, roundToDecimals d v.2.1, roundToDecimals d v.2.2)

/-- The parsed row the reader recovers from a written data row. -/
def roundRowQ (d : ℕ) (v : Vec3) : List ℚ :=
  [roundToDecimals d v.1, roundToDecimals d v.2.1, roundToDecimals d v.2.2]

/-- The tokens of a written data row. -/
def fmtRow (d : ℕ) (v : Vec3) : List Str :=
  [fmtFixed d v.1, fmtFixed d v.2.1, fmtFixed d v.2.2]

/-- The title the reader recovers from the written `TITLE "name"` line
(the quotes become part of the joined remainder; the slice `[1:-1]`
then removes the first and last characters of that join). -/
def readBackTitle (name : Str) : Str :=
  dropFirstLast (joinSpace (pySplit ('\x22' :: (name ++ ['\x22']))))

/-- The spec's words for the `TITLE` directive, used as the refinement
target of C6: "remaining tokens joined by spaces, with the surrounding
quote characters stripped from the joined string" — strip a leading and
a trailing quote when present, and only then. -/
def titleSpec (tokens : List Str) : Str :=
  let j := joinSpace tokens
  let j1 := if j.headD ' ' = '\x22' then j.tail else j
  if j1.getLastD ' ' = '\x22' then j1.dropLast else j1

/-- Tolerance predicate: `x` is within half a final-decimal ulp of `y`. -/
def close (d : ℕ) (x y : ℚ) : Prop := |x - y| ≤ 1 / (2 * 10 ^ d)

/-- A parsed row is a 3-entry row within tolerance of a `Vec3`. -/
def rowClose (d : ℕ) (row : List ℚ) (v : Vec3) : Prop :=
  ∃ x y z, row = [x, y, z] ∧ close d x v.1 ∧ close d y v.2.1 ∧ close d z v.2.2

/-- Two `Vec3`s are within tolerance, channel by channel. -/
def vecClose (d : ℕ) (u v : Vec3) : Prop :=
  close d u.1 v.1 ∧ close d u.2.1 v.2.1 ∧ close d u.2.2 v.2.2

/-- A string has exactly `d` fractional digits: everything after the
(unique) decimal point is `d` digit characters. -/
def hasFracDigits (d : ℕ) (cs : Str) : Prop :=
  ∃ pre frac, cs = pre ++ '.' :: frac ∧ frac.length = d ∧
    '.' ∉ pre ∧ ∀ c ∈ frac, (digitVal c).isSome = true

/-- The classification of input lines used to state C8: blank lines,
comment lines, a `LUT_1D_SIZE 3` directive, a `DOMAIN_MAX 1 2 3`
directive, data rows (any non-directive token line), and anything
else. -/
inductive C8Kind where
  | blank : C8Kind
  | comment (text : Str) : C8Kind
  | size1 : C8Kind
  | dommax : C8Kind
  | datarow (row : List Str) : C8Kind
  | bad : C8Kind
deriving DecidableEq, Repr

/-- Classify one line the way `processLine` consumes it, for the C8
scenario (`LUT_1D_SIZE 3`, `DOMAIN_MAX 1 2 3`, data rows, comments
anywhere). -/
def c8Class (line : Str) : C8Kind :=
  let l := pyStrip line
  if l.length = 0 then .blank
  else if l.headD ' ' = '#' then .comment (pyStrip l.tail)
  else
    match pySplit l with
    | [] => .bad
    | t0 :: rest =>
      if t0 = str "TITLE" then .bad
      else if t0 = str "DOMAIN_MIN" then .bad
      else if t0 = str "DOMAIN_MAX" then
        match parseFloatList rest with
        | .ok v => if v = [1, 2, 3] then .dommax else .bad
        | .error _ => .bad
      else if t0 = str "LUT_1D_SIZE" then
        match rest with
        | [] => .bad
        | t :: _ => if parseIntToken t = some 3 then .size1 else .bad
      else if t0 = str "LUT_3D_SIZE" then .bad
      else .datarow (t0 :: rest)

/-- The state transformer denoted by a classified line. -/
def c8Step (s : ReadState) : C8Kind → ReadState
  | .blank => s
  | .comment t => { s with comments := s.comments ++ [t] }
  | .size1 => { s with dimensions := 2, size := 3 }
  | .dommax => { s with domain_max := [1, 2, 3] }
  | .datarow row => { s with data := s.data ++ [row] }
  | .bad => s

/-- Whether a classified line is the `LUT_1D_SIZE 3` directive. -/
def isSize1 : C8Kind → Bool
  | .size1 => true
  | _ => false

/-- Whether a classified line is the `DOMAIN_MAX 1 2 3` directive. -/
def isDomMax : C8Kind → Bool
  | .dommax => true
  | _ => false

/-- The comment texts of a classified line list, in order. -/
def c8Comments (ks : List C8Kind) : List Str :=
  ks.filterMap fun k => match k with
    | .comment t => some t
    | _ => none

/-- The data rows of a classified line list, in order. -/
def c8Rows (ks : List C8Kind) : List (List Str) :=
  ks.filterMap fun k => match k with
    | .datarow r => some r
    | _ => none

deriving instance DecidableEq for Except

/-! ### Concrete example values used by witnesses and counterexamples -/

/-- A small well-formed 3x1D LUT (size 2, default domain). -/
def exLUT31 : LUT3x1D :=
  { name := str "T"
    table := [(0, 0, 0), (1, 1, 1)]
    domain := defaultDomain
    comments := [] }

/-- A small well-formed 1D LUT (size 2, implicit domain). -/
def exLUT1 : LUT1D :=
  { name := str "A", table := [0, 1], domain := [0, 1], comments := [] }

/-- `exLUT31` with one comment carrying a trailing space. -/
def exLUT31c : LUT3x1D :=
  { exLUT31 with comments := [str "c "] }

/-- `exLUT31` with a non-default domain. -/
def exLUT31nd : LUT3x1D :=
  { name := str "N"
    table := [(0, 0, 0), (1, 1, 1)]
    domain := [(0, 0, 0), (1, 2, 3)]
    comments := [] }

/-- A concrete `(2, 2, 2, 3)` table, stored row-major. -/
def exT8 : List Vec3 :=
  [(0, 10, 20), (1, 11, 21), (2, 12, 22), (3, 13, 23),
   (4, 14, 24), (5, 15, 25), (6, 16, 26), (7, 17, 27)]

/-- A small well-formed 3D LUT (size 2, default domain). -/
def exLUT3D : LUT3D :=
  { name := str "D"
    size := 2
    tableFlat := exT8
    domain := defaultDomain
    comments := [] }

/-! ## Basic lemmas: digits -/

theorem digitVal_digitChar {d : ℕ} (h : d < 10) : digitVal (digitChar d) = some d := by
  interval_cases d <;> decide

theorem digitVal_isSome_iff {c : Char} :
    (digitVal c).isSome = true ↔ 48 ≤ c.toNat ∧ c.toNat ≤ 57 := by
  unfold digitVal
  split <;> simp_all

theorem not_isWS_of_digitVal {c : Char} (h : (digitVal c).isSome = true) :
    isWS c = false := by
  rw [digitVal_isSome_iff] at h
  unfold isWS
  have h32 : (' ' : Char).toNat = 32 := rfl
  have h9 : ('\t' : Char).toNat = 9 := rfl
  have h10 : ('\n' : Char).toNat = 10 := rfl
  have h13 : ('\r' : Char).toNat = 13 := rfl
  have h11 : ('\x0b' : Char).toNat = 11 := rfl
  have h12 : ('\x0c' : Char).toNat = 12 := rfl
  simp only [Bool.or_eq_false_iff, decide_eq_false_iff_not]
  refine ⟨⟨⟨⟨⟨?_, ?_⟩, ?_⟩, ?_⟩, ?_⟩, ?_⟩ <;>
    · intro hc; rw [hc] at h; simp_all

theorem digit_ne_of_toNat {c : Char} (h : (digitVal c).isSome = true)
    (x : Char) (hx : x.toNat < 48 ∨ 57 < x.toNat) : c ≠ x := by
  rw [digitVal_isSome_iff] at h
  intro he
  rw [he] at h
  omega

theorem natDigitsAux_ne_nil {fuel n : ℕ} (h : n < fuel) :
    natDigitsAux fuel n ≠ [] := by
  cases fuel with
  | zero => omega
  | succ f =>
    unfold natDigitsAux
    split <;> simp

theorem natDigits_ne_nil (n : ℕ) : natDigits n ≠ [] :=
  natDigitsAux_ne_nil (Nat.lt_succ_self n)

theorem mem_natDigitsAux_digit {fuel : ℕ} :
    ∀ {n : ℕ} {ch : Char}, n < fuel → ch ∈ natDigitsAux fuel n →
      (digitVal ch).isSome = true := by
  induction fuel with
  | zero => intro n ch h; omega
  | succ f ih =>
    intro n ch h hm
    unfold natDigitsAux at hm
    split at hm
    · rcases List.mem_singleton.mp hm with rfl
      rw [digitVal_digitChar (by omega)]; rfl
    · rcases List.mem_append.mp hm with h1 | h1
      · exact ih (Nat.lt_of_lt_of_le (Nat.div_lt_self (by omega) (by omega)) (by omega)) h1
      · rcases List.mem_singleton.mp h1 with rfl
        rw [digitVal_digitChar (Nat.mod_lt _ (by omega))]; rfl

theorem mem_natDigits_digit {n : ℕ} {ch : Char} (hm : ch ∈ natDigits n) :
    (digitVal ch).isSome = true :=
  mem_natDigitsAux_digit (Nat.lt_succ_self n) hm

theorem parseDigitsCore_append (acc : ℕ) (l1 l2 : Str) :
    parseDigitsCore acc (l1 ++ l2) =
      (parseDigitsCore acc l1).bind (fun m => parseDigitsCore m l2) := by
  induction l1 generalizing acc with
  | nil => simp [parseDigitsCore]
  | cons c cs ih =>
    simp only [List.cons_append, parseDigitsCore]
    cases digitVal c with
    | none => simp
    | some d => simp [ih]

theorem parseDigitsCore_natDigitsAux {fuel : ℕ} :
    ∀ {n acc : ℕ}, n < fuel →
      parseDigitsCore acc (natDigitsAux fuel n) =
        some (acc * 10 ^ (natDigitsAux fuel n).length + n) := by
  induction fuel with
  | zero => intro n acc h; omega
  | succ f ih =>
    intro n acc h
    unfold natDigitsAux
    split
    · rename_i h10
      simp [parseDigitsCore, digitVal_digitChar h10]
    · rename_i h10
      push_neg at h10
      have hlt : n / 10 < f :=
        Nat.lt_of_lt_of_le (Nat.div_lt_self (by omega) (by omega)) (by omega)
      rw [parseDigitsCore_append, ih hlt]
      simp only [Option.some_bind, parseDigitsCore,
        digitVal_digitChar (Nat.mod_lt _ (by omega : (0:ℕ) < 10)),
        List.length_append, List.length_singleton, Option.some.injEq]
      rw [pow_succ]
      have h3 : n / 10 * 10 + n % 10 = n := by omega
      generalize (10:ℕ) ^ (natDigitsAux f (n / 10)).length = P
      calc (acc * P + n / 10) * 10 + n % 10
          = acc * P * 10 + (n / 10 * 10 + n % 10) := by ring
        _ = acc * P * 10 + n := by rw [h3]
        _ = acc * (P * 10) + n := by ring

theorem parseDigitsCore_natDigits (n : ℕ) :
    parseDigitsCore 0 (natDigits n) = some n := by
  have := @parseDigitsCore_natDigitsAux (n + 1) n 0 (Nat.lt_succ_self n)
  simpa using this

theorem parseDigits_natDigits (n : ℕ) : parseDigits (natDigits n) = some n := by
  unfold parseDigits
  split
  · rename_i heq
    exact absurd heq (natDigits_ne_nil n)
  · exact parseDigitsCore_natDigits n

theorem length_natDigitsAux_le {fuel : ℕ} :
    ∀ {n k : ℕ}, n < fuel → n < 10 ^ k → 0 < k →
      (natDigitsAux fuel n).length ≤ k := by
  induction fuel with
  | zero => intro n k h; omega
  | succ f ih =>
    intro n k h hk hk0
    unfold natDigitsAux
    split
    · simpa using hk0
    · rename_i h10
      push_neg at h10
      have hk2 : 2 ≤ k := by
        by_contra hc
        interval_cases k <;> omega
      have hlt : n / 10 < f :=
        Nat.lt_of_lt_of_le (Nat.div_lt_self (by omega) (by omega)) (by omega)
      have hdiv : n / 10 < 10 ^ (k - 1) := by
        rw [Nat.div_lt_iff_lt_mul (by omega : (0:ℕ) < 10)]
        have heq : 10 ^ (k - 1) * 10 = 10 ^ k := by
          rw [← pow_succ]
          congr 1
          omega
        omega
      have := ih hlt hdiv (by omega)
      simp only [List.length_append, List.length_singleton]
      omega

/-! ## The parse / format round trip -/

theorem parseDigitsCore_replicate_zero (acc k : ℕ) :
    parseDigitsCore acc (List.replicate k '0') = some (acc * 10 ^ k) := by
  induction k generalizing acc with
  | zero => simp [parseDigitsCore]
  | succ m ih =>
    rw [List.replicate_succ]
    show parseDigitsCore acc ('0' :: List.replicate m '0') = _
    have h0 : digitVal '0' = some 0 := by decide
    simp only [parseDigitsCore, h0, ih]
    congr 1
    ring

theorem parseDigitsCore_padZeros (d : ℕ) (cs : Str) :
    parseDigitsCore 0 (padZeros d cs) = parseDigitsCore 0 cs := by
  unfold padZeros
  rw [parseDigitsCore_append, parseDigitsCore_replicate_zero]
  simp

theorem length_padZeros_of_le {d : ℕ} {cs : Str} (h : cs.length ≤ d) :
    (padZeros d cs).length = d := by
  unfold padZeros
  simp only [List.length_append, List.length_replicate]
  omega

theorem mem_padZeros_digit {d : ℕ} {cs : Str} {c : Char}
    (hcs : ∀ x ∈ cs, (digitVal x).isSome = true) (hm : c ∈ padZeros d cs) :
    (digitVal c).isSome = true := by
  unfold padZeros at hm
  rcases List.mem_append.mp hm with h | h
  · rcases List.eq_of_mem_replicate h with rfl
    decide
  · exact hcs c h

theorem fmtUnsigned_ne_nil (d a : ℕ) : fmtUnsigned d a ≠ [] := by
  unfold fmtUnsigned
  split
  · exact natDigits_ne_nil a
  · exact List.append_ne_nil_of_right_ne_nil _ (by simp)

theorem head_fmtUnsigned_digit (d a : ℕ) :
    ∀ c, (fmtUnsigned d a).head? = some c → (digitVal c).isSome = true := by
  intro c hc
  unfold fmtUnsigned at hc
  split at hc
  · exact mem_natDigits_digit (List.mem_of_mem_head? hc)
  · rw [List.head?_append_of_ne_nil _ (natDigits_ne_nil _)] at hc
    exact mem_natDigits_digit (List.mem_of_mem_head? hc)

theorem parseUnsignedFloat_digits {cs : Str} (hne : cs ≠ [])
    (hall : ∀ x ∈ cs, (digitVal x).isSome = true) :
    parseUnsignedFloat cs = (parseDigitsCore 0 cs).map (fun n => (n : ℚ)) := by
  unfold parseUnsignedFloat
  rw [List.takeWhile_eq_self_iff.mpr hall, List.dropWhile_eq_nil_iff.mpr hall]
  cases cs with
  | nil => exact absurd rfl hne
  | cons c cs' => rfl

theorem parseUnsignedFloat_fmtUnsigned (d a : ℕ) :
    parseUnsignedFloat (fmtUnsigned d a) = some ((a : ℚ) / 10 ^ d) := by
  rcases Nat.eq_zero_or_pos d with rfl | hd
  · have hall : ∀ x ∈ natDigits a, ((digitVal x).isSome : Bool) = true :=
      fun x hx => mem_natDigits_digit hx
    have he : fmtUnsigned 0 a = natDigits a := by simp [fmtUnsigned]
    rw [he, parseUnsignedFloat_digits (natDigits_ne_nil a) hall,
      parseDigitsCore_natDigits]
    simp
  · have hdz : d ≠ 0 := by omega
    unfold fmtUnsigned
    rw [if_neg hdz]
    unfold parseUnsignedFloat
    have hallInt : ∀ x ∈ natDigits (a / 10 ^ d), ((digitVal x).isSome : Bool) = true :=
      fun x hx => mem_natDigits_digit hx
    have hdot : ((digitVal '.').isSome : Bool) = false := by decide
    have hfrac : ∀ x ∈ padZeros d (natDigits (a % 10 ^ d)),
        ((digitVal x).isSome : Bool) = true :=
      fun x hx => mem_padZeros_digit (fun y hy => mem_natDigits_digit hy) hx
    rw [List.takeWhile_append_of_pos hallInt, List.dropWhile_append_of_pos hallInt]
    simp only [List.takeWhile_cons, hdot, Bool.false_eq_true, if_false,
      List.dropWhile_cons, List.append_nil]
    rw [if_pos (by simpa using hfrac)]
    rw [if_neg (by simp [natDigits_ne_nil])]
    rw [parseDigitsCore_padZeros]
    have h1 : parseDigitsCore 0 (natDigits (a / 10 ^ d)) = some (a / 10 ^ d) :=
      parseDigitsCore_natDigits _
    have h2 : parseDigitsCore 0 (natDigits (a % 10 ^ d)) = some (a % 10 ^ d) :=
      parseDigitsCore_natDigits _
    rw [h1, h2]
    have hlen : (padZeros d (natDigits (a % 10 ^ d))).length = d := by
      apply length_padZeros_of_le
      apply length_natDigitsAux_le (Nat.lt_succ_self _) _ hd
      exact Nat.mod_lt _ (by positivity)
    rw [hlen]
    have hpow : ((10 : ℚ) ^ d) ≠ 0 := by positivity
    have hdm : 10 ^ d * (a / 10 ^ d) + a % 10 ^ d = a := Nat.div_add_mod a (10 ^ d)
    have hQ : (10 : ℚ) ^ d * ((a / 10 ^ d : ℕ) : ℚ) + ((a % 10 ^ d : ℕ) : ℚ) = (a : ℚ) := by
      exact_mod_cast congrArg (Nat.cast : ℕ → ℚ) hdm
    simp only [Option.some.injEq]
    rw [eq_div_iff hpow]
    have expand : (((a / 10 ^ d : ℕ) : ℚ) + ((a % 10 ^ d : ℕ) : ℚ) / (10 : ℚ) ^ d) * 10 ^ d
        = (10 : ℚ) ^ d * ((a / 10 ^ d : ℕ) : ℚ) + ((a % 10 ^ d : ℕ) : ℚ) := by
      field_simp
      ring
    rw [expand, hQ]

theorem parseFloat_fmtFixed (d : ℕ) (q : ℚ) :
    parseFloat (fmtFixed d q) = some (roundToDecimals d q) := by
  unfold fmtFixed roundToDecimals
  set n : ℤ := round (q * (10 : ℚ) ^ d) with hn
  by_cases hneg : n < 0
  · rw [if_pos hneg, List.singleton_append]
    have hred : parseFloat ('-' :: fmtUnsigned d n.natAbs)
        = (parseUnsignedFloat (fmtUnsigned d n.natAbs)).map (fun q => -q) := rfl
    rw [hred, parseUnsignedFloat_fmtUnsigned]
    have h1 : (n.natAbs : ℤ) = -n := Int.ofNat_natAbs_of_nonpos (le_of_lt hneg)
    have hcast : ((n.natAbs : ℕ) : ℚ) = -(n : ℚ) := by
      rw [show ((n.natAbs : ℕ) : ℚ) = ((n.natAbs : ℤ) : ℚ) from (Int.cast_natCast _).symm,
        h1, Int.cast_neg]
    rw [hcast]
    simp only [Option.map_some', Option.some.injEq]
    ring
  · rw [if_neg hneg, List.nil_append]
    obtain ⟨c, hc⟩ : ∃ c, (fmtUnsigned d n.natAbs).head? = some c := by
      rcases h : fmtUnsigned d n.natAbs with _ | ⟨c, cs⟩
      · exact absurd h (fmtUnsigned_ne_nil d n.natAbs)
      · exact ⟨c, rfl⟩
    have hdig := head_fmtUnsigned_digit d n.natAbs c hc
    have hminus : c ≠ '-' := digit_ne_of_toNat hdig '-' (by left; decide)
    have hplus : c ≠ '+' := digit_ne_of_toNat hdig '+' (by left; decide)
    have hheadD : (fmtUnsigned d n.natAbs).headD ' ' = c := by
      rw [List.headD_eq_head?_getD, hc]
      rfl
    unfold parseFloat
    rw [hheadD, if_neg hminus, if_neg hplus, parseUnsignedFloat_fmtUnsigned]
    have h1 : (n.natAbs : ℤ) = n := Int.natAbs_of_nonneg (not_lt.mp hneg)
    have hcast : ((n.natAbs : ℕ) : ℚ) = (n : ℚ) := by
      rw [show ((n.natAbs : ℕ) : ℚ) = ((n.natAbs : ℤ) : ℚ) from (Int.cast_natCast _).symm, h1]
    rw [hcast]

/-- The written value is within half an ulp of `d` decimals of the
original. -/
theorem roundToDecimals_close (d : ℕ) (q : ℚ) :
    |roundToDecimals d q - q| ≤ 1 / (2 * 10 ^ d) := by
  unfold roundToDecimals
  have hpow : (0 : ℚ) < (10 : ℚ) ^ d := by positivity
  have h1 : (round (q * (10 : ℚ) ^ d) : ℚ) / (10 : ℚ) ^ d - q
      = ((round (q * (10 : ℚ) ^ d) : ℚ) - q * (10 : ℚ) ^ d) / (10 : ℚ) ^ d := by
    field_simp
    ring
  rw [h1, abs_div, abs_of_pos hpow]
  rw [div_le_div_iff hpow (by positivity)]
  have h2 : |(round (q * (10 : ℚ) ^ d) : ℚ) - q * (10 : ℚ) ^ d| ≤ 1 / 2 := by
    rw [abs_sub_comm]
    exact abs_sub_round _
  calc |(round (q * (10 : ℚ) ^ d) : ℚ) - q * (10 : ℚ) ^ d| * (2 * 10 ^ d)
      ≤ (1 / 2) * (2 * 10 ^ d) := by
        apply mul_le_mul_of_nonneg_right h2
        positivity
    _ = 1 * (10 : ℚ) ^ d := by ring

/-! ## Character classes of formatted numbers -/

theorem mem_fmtUnsigned {d a : ℕ} {c : Char} (hm : c ∈ fmtUnsigned d a) :
    c = '.' ∨ (digitVal c).isSome = true := by
  unfold fmtUnsigned at hm
  split at hm
  · exact Or.inr (mem_natDigits_digit hm)
  · rcases List.mem_append.mp hm with h | h
    · exact Or.inr (mem_natDigits_digit h)
    · rcases List.mem_cons.mp h with rfl | h
      · exact Or.inl rfl
      · exact Or.inr (mem_padZeros_digit (fun y hy => mem_natDigits_digit hy) h)

theorem mem_fmtFixed {d : ℕ} {q : ℚ} {c : Char} (hm : c ∈ fmtFixed d q) :
    c = '-' ∨ c = '.' ∨ (digitVal c).isSome = true := by
  unfold fmtFixed at hm
  rcases List.mem_append.mp hm with h | h
  · split at h
    · rcases List.mem_singleton.mp h with rfl
      exact Or.inl rfl
    · simp at h
  · rcases mem_fmtUnsigned h with h | h
    · exact Or.inr (Or.inl h)
    · exact Or.inr (Or.inr h)

theorem not_isWS_mem_fmtFixed {d : ℕ} {q : ℚ} {c : Char} (hm : c ∈ fmtFixed d q) :
    isWS c = false := by
  rcases mem_fmtFixed hm with rfl | rfl | h
  · decide
  · decide
  · exact not_isWS_of_digitVal h

theorem fmtFixed_ne_nil (d : ℕ) (q : ℚ) : fmtFixed d q ≠ [] := by
  unfold fmtFixed
  exact List.append_ne_nil_of_right_ne_nil _ (fmtUnsigned_ne_nil _ _)

/-- The first character of a formatted number is a minus sign or a
digit; in particular it differs from `'#'`, `'T'`, `'D'` and `'L'`. -/
theorem head_fmtFixed (d : ℕ) (q : ℚ) :
    ∀ c, (fmtFixed d q).head? = some c → c = '-' ∨ (digitVal c).isSome = true := by
  intro c hc
  unfold fmtFixed at hc
  split at hc
  · rw [List.singleton_append] at hc
    exact Or.inl (by injection hc with h; exact h.symm)
  · rw [List.nil_append] at hc
    exact Or.inr (head_fmtUnsigned_digit _ _ c hc)

/-! ## Lemmas on stripping and splitting -/

theorem pySplitAux_congr : ∀ (fuel fuel' : ℕ) (cs : Str), cs.length ≤ fuel →
    cs.length ≤ fuel' → pySplitAux fuel cs = pySplitAux fuel' cs := by
  intro fuel
  induction fuel with
  | zero =>
    intro fuel' cs h h'
    have : cs = [] := List.length_eq_zero.mp (by omega)
    subst this
    cases fuel' <;> rfl
  | succ f ih =>
    intro fuel' cs h h'
    cases cs with
    | nil => cases fuel' <;> rfl
    | cons c cs' =>
      simp only [List.length_cons] at h h'
      cases fuel' with
      | zero => omega
      | succ f' =>
        show pySplitAux (f + 1) (c :: cs') = pySplitAux (f' + 1) (c :: cs')
        unfold pySplitAux
        split
        · exact ih f' cs' (by omega) (by omega)
        · have hd : (cs'.dropWhile (fun x => !isWS x)).length ≤ cs'.length :=
            (List.dropWhile_sublist _).length_le
          rw [ih f' _ (by omega) (by omega)]

theorem pySplitAux_cons (fuel : ℕ) (c : Char) (cs : Str) :
    pySplitAux (fuel + 1) (c :: cs) =
      if isWS c then pySplitAux fuel cs
      else (c :: cs.takeWhile (fun x => !isWS x)) ::
        pySplitAux fuel (cs.dropWhile (fun x => !isWS x)) := rfl

theorem pySplit_cons_of_WS {c : Char} {cs : Str} (h : isWS c = true) :
    pySplit (c :: cs) = pySplit cs := by
  show pySplitAux (cs.length + 1) (c :: cs) = pySplit cs
  rw [pySplitAux_cons, if_pos h]
  rfl

theorem pySplit_cons_of_not_WS {c : Char} {cs : Str} (h : isWS c = false) :
    pySplit (c :: cs) =
      (c :: cs.takeWhile (fun x => !isWS x)) ::
        pySplit (cs.dropWhile (fun x => !isWS x)) := by
  show pySplitAux (cs.length + 1) (c :: cs) = _
  rw [pySplitAux_cons, if_neg (by simp [h])]
  congr 1
  exact pySplitAux_congr _ _ _ ((List.dropWhile_sublist _).length_le)
    (Nat.le_refl _)

/-- Splitting a line that starts with a whitespace-free token followed by
a space: the token comes off first. -/
theorem pySplit_token_append {t r : Str} (ht : t ≠ [])
    (hall : ∀ c ∈ t, isWS c = false) :
    pySplit (t ++ ' ' :: r) = t :: pySplit r := by
  cases t with
  | nil => exact absurd rfl ht
  | cons c t' =>
    rw [List.cons_append, pySplit_cons_of_not_WS (hall c (List.mem_cons_self _ _))]
    have hall' : ∀ x ∈ t', (!isWS x) = true := by
      intro x hx
      simp [hall x (List.mem_cons_of_mem _ hx)]
    have hsp : (!isWS ' ') = false := by decide
    congr 1
    · rw [List.takeWhile_append_of_pos hall']
      simp [List.takeWhile_cons, hsp]
    · rw [List.dropWhile_append_of_pos hall']
      rw [List.dropWhile_cons, if_neg (by decide)]
      exact pySplit_cons_of_WS (by decide)

/-- Splitting a single whitespace-free token. -/
theorem pySplit_token_single {t : Str} (ht : t ≠ [])
    (hall : ∀ c ∈ t, isWS c = false) :
    pySplit t = [t] := by
  cases t with
  | nil => exact absurd rfl ht
  | cons c t' =>
    rw [pySplit_cons_of_not_WS (hall c (List.mem_cons_self _ _))]
    have hall' : ∀ x ∈ t', (!isWS x) = true := by
      intro x hx
      simp [hall x (List.mem_cons_of_mem _ hx)]
    rw [List.takeWhile_eq_self_iff.mpr hall', List.dropWhile_eq_nil_iff.mpr hall']
    rfl

/-- A string whose first and last characters are not whitespace strips to
itself. -/
theorem pyStrip_eq_self {cs : Str}
    (h1 : ∀ c, cs.head? = some c → isWS c = false)
    (h2 : ∀ c, cs.getLast? = some c → isWS c = false) :
    pyStrip cs = cs := by
  cases cs with
  | nil => rfl
  | cons c cs' =>
    unfold pyStrip
    rw [List.dropWhile_cons, if_neg (by simp [h1 c rfl])]
    rcases hr : (c :: cs').reverse with _ | ⟨x, r'⟩
    · exact absurd hr (by simp)
    · have hx : (c :: cs').getLast? = some x := by
        rw [← List.head?_reverse, hr]
        rfl
      rw [List.dropWhile_cons, if_neg (by simp [h2 x hx]), ← hr,
        List.reverse_reverse]

theorem length_pyStrip_le (cs : Str) : (pyStrip cs).length ≤ cs.length := by
  unfold pyStrip
  have h1 : (cs.dropWhile isWS).length ≤ cs.length :=
    (List.dropWhile_sublist _).length_le
  have h2 : ((cs.dropWhile isWS).reverse.dropWhile isWS).length
      ≤ (cs.dropWhile isWS).reverse.length :=
    (List.dropWhile_sublist _).length_le
  simp only [List.length_reverse] at h2 ⊢
  omega

/-- If a nonempty string strips to itself, its first and last characters
are not whitespace. -/
theorem pyStrip_self_head_last {cs : Str} (h : pyStrip cs = cs) (hne : cs ≠ []) :
    (∀ c, cs.head? = some c → isWS c = false) ∧
      (∀ c, cs.getLast? = some c → isWS c = false) := by
  have hdw : cs.dropWhile isWS = cs := by
    have hlen : (pyStrip cs).length = cs.length := by rw [h]
    have h1 : (cs.dropWhile isWS).length ≤ cs.length :=
      (List.dropWhile_sublist _).length_le
    have h2 : ((cs.dropWhile isWS).reverse.dropWhile isWS).length
        ≤ (cs.dropWhile isWS).reverse.length :=
      (List.dropWhile_sublist _).length_le
    have h3 : (pyStrip cs).length
        = ((cs.dropWhile isWS).reverse.dropWhile isWS).length := by
      unfold pyStrip
      rw [List.length_reverse]
    have hle : (cs.dropWhile isWS).length = cs.length := by
      simp only [List.length_reverse] at h2
      omega
    exact (List.dropWhile_sublist _).eq_of_length hle
  constructor
  · intro c hc
    cases cs with
    | nil => exact absurd rfl hne
    | cons a cs' =>
      injection hc with hc
      subst hc
      by_contra hws
      rw [List.dropWhile_cons, if_pos (by simpa using hws)] at hdw
      have : (cs'.dropWhile isWS).length ≤ cs'.length :=
        (List.dropWhile_sublist _).length_le
      have : (cs'.dropWhile isWS).length = cs'.length + 1 := by rw [hdw]; rfl
      omega
  · intro c hc
    have hrev : (cs.dropWhile isWS).reverse.dropWhile isWS
        = (cs.dropWhile isWS).reverse := by
      have hlen : (pyStrip cs).length = cs.length := by rw [h]
      have h3 : (pyStrip cs).length
          = ((cs.dropWhile isWS).reverse.dropWhile isWS).length := by
        unfold pyStrip
        rw [List.length_reverse]
      apply (List.dropWhile_sublist _).eq_of_length
      rw [hdw] at h3 ⊢
      rw [List.length_reverse]
      omega
    rw [hdw] at hrev
    rcases hr : cs.reverse with _ | ⟨x, r'⟩
    · simp at hr
      exact absurd hr hne
    · have hx : cs.reverse.head? = some c := by
        rw [List.head?_reverse]
        exact hc
      rw [hr] at hx hrev
      injection hx with hx
      subst hx
      by_contra hws
      rw [List.dropWhile_cons, if_pos (by simpa using hws)] at hrev
      have h4 : (r'.dropWhile isWS).length ≤ r'.length :=
        (List.dropWhile_sublist _).length_le
      have h5 : (r'.dropWhile isWS).length = r'.length + 1 := by rw [hrev]; rfl
      omega

/-! ## The Fortran-order flatten / reshape pair -/

theorem div_pow_two_lt {n j : ℕ} (hn : 0 < n) (hj : j < n ^ 3) :
    j / n ^ 2 < n := by
  rw [Nat.div_lt_iff_lt_mul (by positivity)]
  calc j < n ^ 3 := hj
    _ = n ^ 2 * n := by ring
    _ = n * n ^ 2 := by ring

/-- Base-`n` decomposition of an index below `n ^ 3`. -/
theorem decomp3 {n j : ℕ} (hn : 0 < n) (hj : j < n ^ 3) :
    (j / n ^ 2) * n ^ 2 + (j / n % n) * n + j % n = j := by
  have h1 : n ^ 2 * (j / n ^ 2) + j % n ^ 2 = j := Nat.div_add_mod _ _
  have h3 : n * (j % n ^ 2 / n) + j % n ^ 2 % n = j % n ^ 2 := Nat.div_add_mod _ _
  have h4 : j % n ^ 2 % n = j % n := Nat.mod_mod_of_dvd _ ⟨n, by ring⟩
  have h5 : j % n ^ 2 / n < n := by
    rw [Nat.div_lt_iff_lt_mul hn]
    calc j % n ^ 2 < n ^ 2 := Nat.mod_lt _ (by positivity)
      _ = n * n := by ring
  have hdivn : j / n = n * (j / n ^ 2) + j % n ^ 2 / n := by
    conv_lhs => rw [← h1]
    have hsq : n ^ 2 * (j / n ^ 2) = n * (n * (j / n ^ 2)) := by ring
    rw [hsq, Nat.mul_add_div hn]
  have h6 : j / n % n = j % n ^ 2 / n := by
    rw [hdivn, Nat.mul_add_mod]
    exact Nat.mod_eq_of_lt h5
  calc (j / n ^ 2) * n ^ 2 + (j / n % n) * n + j % n
      = n ^ 2 * (j / n ^ 2) + (n * (j % n ^ 2 / n) + j % n ^ 2 % n) := by
        rw [h6, h4]
        ring
    _ = n ^ 2 * (j / n ^ 2) + j % n ^ 2 := by rw [h3]
    _ = j := h1

/-- The reader's source position `p j` (Fortran enumeration) of the
destination cell stored row-major at `j`, fed through the writer's
flatten index, comes back to `j`; and `p j` is in range. -/
theorem flatten_index_inverse {n j : ℕ} (hn : 0 < n) (hj : j < n ^ 3) :
    (j / n ^ 2 + (j / n % n) * n + (j % n) * n ^ 2) < n ^ 3 ∧
    ((j / n ^ 2 + (j / n % n) * n + (j % n) * n ^ 2) % n) * n ^ 2
      + ((j / n ^ 2 + (j / n % n) * n + (j % n) * n ^ 2) / n % n) * n
      + (j / n ^ 2 + (j / n % n) * n + (j % n) * n ^ 2) / n ^ 2 = j := by
  have ha : j / n ^ 2 < n := div_pow_two_lt hn hj
  have hb : j / n % n < n := Nat.mod_lt _ hn
  have hc : j % n < n := Nat.mod_lt _ hn
  set a := j / n ^ 2
  set b := j / n % n
  set c := j % n
  have hi : a + b * n + c * n ^ 2 = a + n * (b + c * n) := by ring
  have hmod : (a + b * n + c * n ^ 2) % n = a := by
    rw [hi, Nat.add_mul_mod_self_left, Nat.mod_eq_of_lt ha]
  have hdiv : (a + b * n + c * n ^ 2) / n = b + c * n := by
    rw [hi, Nat.add_mul_div_left _ _ hn, Nat.div_eq_of_lt ha, Nat.zero_add]
  have hdivmod : (a + b * n + c * n ^ 2) / n % n = b := by
    rw [hdiv, Nat.add_mul_mod_self_right, Nat.mod_eq_of_lt hb]
  have hdiv2 : (a + b * n + c * n ^ 2) / n ^ 2 = c := by
    have hsplit : (a + b * n + c * n ^ 2) / n ^ 2
        = (a + b * n + c * n ^ 2) / n / n := by
      rw [Nat.div_div_eq_div_mul]
      congr 1
      ring
    rw [hsplit, hdiv, Nat.add_mul_div_right _ _ hn, Nat.div_eq_of_lt hb,
      Nat.zero_add]
  refine ⟨?_, ?_⟩
  · nlinarith
  · rw [hmod, hdivmod, hdiv2]
    exact decomp3 hn hj

theorem length_flattenTable3D (n : ℕ) (T : List Vec3) :
    (flattenTable3D n T).length = n ^ 3 := by
  simp [flattenTable3D]

theorem getD_flattenTable3D {n i : ℕ} (T : List Vec3) (h : i < n ^ 3) :
    (flattenTable3D n T).getD i (0, 0, 0)
      = T.getD ((i % n) * n ^ 2 + (i / n % n) * n + i / n ^ 2) (0, 0, 0) := by
  rw [List.getD_eq_getElem _ _ (by simpa [length_flattenTable3D] using h)]
  simp [flattenTable3D]

/-- `getD` through a `map`, at an index below the length. -/
theorem getD_map_lt {α β : Type} [Inhabited β] (f : α → β) {l : List α} {i : ℕ}
    (h : i < l.length) (d0 : α) (d : β) :
    (l.map f).getD i d = f (l.getD i d0) := by
  rw [List.getD_eq_getElem _ _ (by simpa using h), List.getD_eq_getElem _ _ h]
  simp

/-- One component of the column-major sequence of a width-3 table. -/
theorem colMajorSeq3_getD {rows : List (List ℚ)} {p k : ℕ}
    (hp : p < rows.length) (hk : k < 3) :
    (colMajorSeq 3 rows).getD (p + k * rows.length) 0
      = (rows.getD p []).getD k 0 := by
  have hrange : List.range 3 = [0, 1, 2] := rfl
  have hlen : ∀ j : ℕ,
      (rows.map (fun r : List ℚ => r.getD j 0)).length = rows.length := by
    intro j
    simp
  have hcol : ∀ j : ℕ, (rows.map (fun r : List ℚ => r.getD j 0)).getD p 0
      = (rows.getD p []).getD j 0 := by
    intro j
    exact getD_map_lt _ hp [] 0
  unfold colMajorSeq
  rw [hrange]
  show ((rows.map (fun r : List ℚ => r.getD 0 0))
      ++ ((rows.map (fun r : List ℚ => r.getD 1 0))
      ++ ((rows.map (fun r : List ℚ => r.getD 2 0)) ++ []))).getD
        (p + k * rows.length) 0 = _
  interval_cases k
  · rw [Nat.mul_comm, Nat.mul_zero, Nat.add_zero,
      List.getD_append _ _ _ _ (by rw [hlen]; exact hp), hcol]
  · rw [List.getD_append_right _ _ _ _ (by rw [hlen]; omega)]
    rw [hlen]
    have : p + 1 * rows.length - rows.length = p := by omega
    rw [this, List.getD_append _ _ _ _ (by rw [hlen]; exact hp), hcol]
  · rw [List.getD_append_right _ _ _ _ (by rw [hlen]; omega)]
    rw [hlen]
    have h2 : p + 2 * rows.length - rows.length = p + 1 * rows.length := by omega
    rw [h2, List.getD_append_right _ _ _ _ (by rw [hlen]; omega)]
    rw [hlen]
    have h3 : p + 1 * rows.length - rows.length = p := by omega
    rw [h3, List.getD_append _ _ _ _ (by rw [hlen]; exact hp), hcol]

theorem headD_map_vec3Row {l : List Vec3} (h : l ≠ []) :
    ((l.map vec3Row).headD []).length = 3 := by
  cases l with
  | nil => exact absurd rfl h
  | cons v vs => rfl

/-- Reading back the writer's Fortran-order flattening reconstructs the
original row-major table exactly. -/
theorem reshape_flattenTable3D {n : ℕ} (hn : 0 < n) (T : List Vec3)
    (hT : T.length = n ^ 3) :
    reshapeTable3D ((flattenTable3D n T).map vec3Row) (n : ℤ) = .ok T := by
  have hnn : (0:ℕ) < n ^ 3 := by positivity
  have hfne : flattenTable3D n T ≠ [] := by
    intro hcon
    have := congrArg List.length hcon
    rw [length_flattenTable3D] at this
    simp at this
    omega
  have hm : ((flattenTable3D n T).map vec3Row).length = n ^ 3 := by
    rw [List.length_map, length_flattenTable3D]
  have hw : (((flattenTable3D n T).map vec3Row).headD []).length = 3 :=
    headD_map_vec3Row hfne
  have htn : (n : ℤ).toNat = n := Int.toNat_natCast n
  unfold reshapeTable3D
  rw [if_neg (by omega : ¬((n : ℤ) < 0)), htn, hm, hw,
    if_neg (by push_neg; ring)]
  congr 1
  apply List.ext_getElem
  · rw [List.length_map, List.length_range, hT]
  · intro j hj1 hj2
    rw [hT] at hj2
    have hjr : j < (List.range (n ^ 3)).length := by simpa using hj2
    rw [List.getElem_map, List.getElem_range]
    obtain ⟨hplt, hpinv⟩ := flatten_index_inverse hn hj2
    have hrowslen : ((flattenTable3D n T).map vec3Row).length = n ^ 3 := hm
    have hplt' : fortranPos n j < n ^ 3 := hplt
    have hrowval : ((flattenTable3D n T).map vec3Row).getD (fortranPos n j) []
        = vec3Row (T.getD j (0, 0, 0)) := by
      rw [getD_map_lt vec3Row
        (by rw [length_flattenTable3D]; exact hplt') (0,0,0) []]
      congr 1
      unfold fortranPos
      rw [getD_flattenTable3D _ hplt, hpinv]
    have hget : ∀ k, k < 3 →
        (colMajorSeq 3 ((flattenTable3D n T).map vec3Row)).getD
          (fortranPos n j + k * n ^ 3) 0
        = (vec3Row (T.getD j (0, 0, 0))).getD k 0 := by
      intro k hk
      have hc := @colMajorSeq3_getD ((flattenTable3D n T).map vec3Row)
        (fortranPos n j) k (by rw [hrowslen]; exact hplt') hk
      rw [hrowslen] at hc
      rw [hc, hrowval]
    have h0 := hget 0 (by omega)
    have h1 := hget 1 (by omega)
    have h2 := hget 2 (by omega)
    rw [Nat.zero_mul, Nat.add_zero] at h0
    rw [Nat.one_mul] at h1
    have hj3 : j < T.length := by omega
    have hTj : T.getD j (0, 0, 0) = T[j] := List.getD_eq_getElem _ _ hj3
    rw [h0, h1, h2, hTj]
    rfl

/-! ## Reading back the writer's lines, one line at a time -/

theorem parseIntToken_natDigits (k : ℕ) :
    parseIntToken (natDigits k) = some (k : ℤ) := by
  obtain ⟨c, hc⟩ : ∃ c, (natDigits k).head? = some c := by
    rcases h : natDigits k with _ | ⟨c, cs⟩
    · exact absurd h (natDigits_ne_nil k)
    · exact ⟨c, rfl⟩
  have hdig := mem_natDigits_digit (List.mem_of_mem_head? hc)
  have hminus : c ≠ '-' := digit_ne_of_toNat hdig '-' (by left; decide)
  have hplus : c ≠ '+' := digit_ne_of_toNat hdig '+' (by left; decide)
  have hheadD : (natDigits k).headD ' ' = c := by
    rw [List.headD_eq_head?_getD, hc]
    rfl
  unfold parseIntToken
  rw [hheadD, if_neg hminus, if_neg hplus, parseDigits_natDigits]
  rfl

/-- The stripped writer `TITLE` line processes into a title update. -/
theorem processLine_title (s : ReadState) (name : Str) :
    processLine s (str "TITLE \"" ++ name ++ ['\"'])
      = .ok { s with
          title := dropFirstLast (joinSpace (pySplit ('\"' :: (name ++ ['\"'])))) } := by
  have hform : str "TITLE \"" ++ name ++ ['\"']
      = str "TITLE" ++ ' ' :: ('\"' :: (name ++ ['\"'])) := by
    show (str "TITLE \"" ++ name) ++ ['\"'] = _
    have : str "TITLE \"" = str "TITLE" ++ (' ' :: ['\"']) := rfl
    rw [this]
    simp
  have hhead : (str "TITLE \"" ++ name ++ ['\"']).head? = some 'T' := by
    rw [hform]
    rfl
  have hlast : (str "TITLE \"" ++ name ++ ['\"']).getLast? = some '\"' :=
    List.getLast?_concat _
  have hstrip : pyStrip (str "TITLE \"" ++ name ++ ['\"'])
      = str "TITLE \"" ++ name ++ ['\"'] := by
    apply pyStrip_eq_self
    · intro c hcch
      rw [hhead] at hcch
      injection hcch with hcch
      subst hcch
      decide
    · intro c hcch
      rw [hlast] at hcch
      injection hcch with hcch
      subst hcch
      decide
  have hsplit : pySplit (str "TITLE \"" ++ name ++ ['\"'])
      = str "TITLE" :: pySplit ('\"' :: (name ++ ['\"'])) := by
    rw [hform]
    exact pySplit_token_append (by decide) (by decide)
  unfold processLine
  rw [hstrip]
  unfold processStripped
  rw [if_neg (by rw [hform]; simp),
    if_neg (by rw [hform]; show ¬('T' = '#'); decide), hsplit]
  rfl

/-- The stripped writer comment line `# c`, for a whitespace-trimmed
comment, processes into appending the comment verbatim. -/
theorem processLine_comment (s : ReadState) {c : Str} (hc : pyStrip c = c) :
    processLine s (str "# " ++ c)
      = .ok { s with comments := s.comments ++ [c] } := by
  rcases hcnil : c with _ | ⟨x, c'⟩
  · show processLine s (str "# ") = _
    show processStripped s (pyStrip (str "# ")) = _
    have h1 : pyStrip (str "# ") = ['#'] := by decide
    rw [h1]
    rfl
  · rw [← hcnil]
    have hcne : c ≠ [] := by rw [hcnil]; simp
    obtain ⟨hch, hcl⟩ := pyStrip_self_head_last hc hcne
    have hline : str "# " ++ c = '#' :: (' ' :: c) := by
      have : str "# " = '#' :: [' '] := rfl
      rw [this]
      simp
    have hstrip : pyStrip (str "# " ++ c) = str "# " ++ c := by
      apply pyStrip_eq_self
      · intro y hy
        rw [hline] at hy
        injection hy with hy
        subst hy
        decide
      · intro y hy
        rw [hline] at hy
        have h2 : (('#' : Char) :: (' ' :: c)).getLast? = c.getLast? := by
          rw [List.getLast?_cons_cons]
          cases c with
          | nil => exact absurd rfl hcne
          | cons a as => rw [List.getLast?_cons_cons]
        rw [h2] at hy
        exact hcl y hy
    unfold processLine
    rw [hstrip]
    unfold processStripped
    rw [if_neg (by rw [hline]; simp), if_pos (by rw [hline]; rfl)]
    have htail : (str "# " ++ c).tail = ' ' :: c := by rw [hline]; rfl
    rw [htail]
    have hstrip2 : pyStrip (' ' :: c) = c := by
      unfold pyStrip
      rw [List.dropWhile_cons, if_pos (by decide)]
      have hd : c.dropWhile isWS = c := by
        cases hcc : c with
        | nil => rfl
        | cons a as =>
          rw [List.dropWhile_cons,
            if_neg (by simp [hch a (by rw [hcc]; rfl)])]
      rw [hd]
      rcases hr : c.reverse with _ | ⟨x, r'⟩
      · simp at hr
        exact absurd hr hcne
      · have hx : c.getLast? = some x := by
          rw [← List.head?_reverse, hr]
          rfl
        rw [List.dropWhile_cons, if_neg (by simp [hcl x hx]), ← hr,
          List.reverse_reverse]
    rw [hstrip2]

theorem getLast?_mem {α : Type} {l : List α} {x : α} (h : l.getLast? = some x) :
    x ∈ l := by
  have hx : x ∈ l.getLast? := by
    rw [h]
    rfl
  rcases List.mem_getLast?_eq_getLast hx with ⟨hne, heq⟩
  rw [heq]
  exact List.getLast_mem hne

theorem getLast?_cons_of_ne_nil {α : Type} {x : α} {l : List α} (h : l ≠ []) :
    (x :: l).getLast? = l.getLast? := by
  cases l with
  | nil => exact absurd rfl h
  | cons a as => rw [List.getLast?_cons_cons]

/-- A non-blank non-comment line is dispatched on its tokens. -/
theorem processStripped_split (s : ReadState) {l t0 : Str} {rest : List Str}
    (hne : ¬(l.length = 0)) (hhash : ¬(l.headD ' ' = '#'))
    (hsplit : pySplit l = t0 :: rest) :
    processStripped s l = procTokens s t0 rest := by
  unfold processStripped
  rw [if_neg hne, if_neg hhash, hsplit]

/-- Any line of the shape `tok ++ " " ++ payload` with a whitespace-free
non-`#` token and a payload ending in non-whitespace is stripped to
itself and dispatched on `tok`. -/
theorem processLine_directive (s : ReadState) {tok payload : Str}
    (htokne : tok ≠ []) (htokws : ∀ c ∈ tok, isWS c = false)
    (hhash : ∀ c, tok.head? = some c → c ≠ '#')
    (hpayne : payload ≠ [])
    (hlast : ∀ c, payload.getLast? = some c → isWS c = false) :
    processLine s (tok ++ ' ' :: payload) = procTokens s tok (pySplit payload) := by
  obtain ⟨c0, t0', rfl⟩ : ∃ c0 t0', tok = c0 :: t0' := by
    cases tok with
    | nil => exact absurd rfl htokne
    | cons a as => exact ⟨a, as, rfl⟩
  have hstrip : pyStrip ((c0 :: t0') ++ ' ' :: payload)
      = (c0 :: t0') ++ ' ' :: payload := by
    apply pyStrip_eq_self
    · intro c hc
      rw [List.cons_append] at hc
      injection hc with hc
      subst hc
      exact htokws _ (List.mem_cons_self _ _)
    · intro c hc
      rw [List.getLast?_append_of_ne_nil _ (by simp),
        getLast?_cons_of_ne_nil hpayne] at hc
      exact hlast c hc
  have hsplit : pySplit ((c0 :: t0') ++ ' ' :: payload)
      = (c0 :: t0') :: pySplit payload :=
    pySplit_token_append htokne htokws
  unfold processLine
  rw [hstrip]
  apply processStripped_split s _ _ hsplit
  · simp
  · show ¬(c0 = '#')
    exact hhash c0 rfl

theorem pySplit_formatArray (d : ℕ) (v : Vec3) :
    pySplit (formatArray d v)
      = [fmtFixed d v.1, fmtFixed d v.2.1, fmtFixed d v.2.2] := by
  have hform : formatArray d v
      = fmtFixed d v.1 ++ ' ' :: (fmtFixed d v.2.1 ++ ' ' :: fmtFixed d v.2.2) := by
    unfold formatArray
    simp
  rw [hform,
    pySplit_token_append (fmtFixed_ne_nil _ _) (fun c hc => not_isWS_mem_fmtFixed hc),
    pySplit_token_append (fmtFixed_ne_nil _ _) (fun c hc => not_isWS_mem_fmtFixed hc),
    pySplit_token_single (fmtFixed_ne_nil _ _) (fun c hc => not_isWS_mem_fmtFixed hc)]

theorem parseFloatList_fmt3 (d : ℕ) (v : Vec3) :
    parseFloatList [fmtFixed d v.1, fmtFixed d v.2.1, fmtFixed d v.2.2]
      = .ok [roundToDecimals d v.1, roundToDecimals d v.2.1,
             roundToDecimals d v.2.2] := by
  simp only [parseFloatList, parseFloat_fmtFixed]

theorem getLast?_formatArray_not_WS (d : ℕ) (v : Vec3) :
    ∀ c, (formatArray d v).getLast? = some c → isWS c = false := by
  intro c hc
  unfold formatArray at hc
  rw [show fmtFixed d v.1 ++ ' ' :: fmtFixed d v.2.1 ++ ' ' :: fmtFixed d v.2.2
      = (fmtFixed d v.1 ++ ' ' :: fmtFixed d v.2.1)
        ++ ' ' :: fmtFixed d v.2.2 from by simp] at hc
  rw [List.getLast?_append_of_ne_nil _ (by simp),
    getLast?_cons_of_ne_nil (fmtFixed_ne_nil _ _)] at hc
  exact not_isWS_mem_fmtFixed (getLast?_mem hc)

/-- `LUT_1D_SIZE n` (as the writer prints it) sets dimensions 2 and the
size. -/
theorem processLine_size1D (s : ReadState) (k : ℕ) :
    processLine s (str "LUT_1D_SIZE " ++ natDigits k)
      = .ok { s with dimensions := 2, size := (k : ℤ) } := by
  have hform : str "LUT_1D_SIZE " ++ natDigits k
      = str "LUT_1D_SIZE" ++ ' ' :: natDigits k := by
    rw [show str "LUT_1D_SIZE " = str "LUT_1D_SIZE" ++ [' '] from rfl]
    simp
  rw [hform, processLine_directive s (by decide) (by decide)
    (by intro c hc; injection hc with hc; subst hc; decide)
    (natDigits_ne_nil k)
    (fun c hc => not_isWS_of_digitVal (mem_natDigits_digit (getLast?_mem hc)))]
  rw [pySplit_token_single (natDigits_ne_nil k)
    (fun c hc => not_isWS_of_digitVal (mem_natDigits_digit hc))]
  show (match parseIntToken (natDigits k) with
    | some n => Except.ok { s with dimensions := 2, size := n }
    | none => Except.error "ValueError: invalid literal for int") = _
  rw [parseIntToken_natDigits]

/-- `LUT_3D_SIZE n` sets dimensions 3 and the size. -/
theorem processLine_size3D (s : ReadState) (k : ℕ) :
    processLine s (str "LUT_3D_SIZE " ++ natDigits k)
      = .ok { s with dimensions := 3, size := (k : ℤ) } := by
  have hform : str "LUT_3D_SIZE " ++ natDigits k
      = str "LUT_3D_SIZE" ++ ' ' :: natDigits k := by
    rw [show str "LUT_3D_SIZE " = str "LUT_3D_SIZE" ++ [' '] from rfl]
    simp
  rw [hform, processLine_directive s (by decide) (by decide)
    (by intro c hc; injection hc with hc; subst hc; decide)
    (natDigits_ne_nil k)
    (fun c hc => not_isWS_of_digitVal (mem_natDigits_digit (getLast?_mem hc)))]
  rw [pySplit_token_single (natDigits_ne_nil k)
    (fun c hc => not_isWS_of_digitVal (mem_natDigits_digit hc))]
  show (match parseIntToken (natDigits k) with
    | some n => Except.ok { s with dimensions := 3, size := n }
    | none => Except.error "ValueError: invalid literal for int") = _
  rw [parseIntToken_natDigits]

/-- The written `DOMAIN_MIN` line replaces `domain_min` with the three
rounded channel values. -/
theorem processLine_domain_min (s : ReadState) (d : ℕ) (v : Vec3) :
    processLine s (str "DOMAIN_MIN " ++ formatArray d v)
      = .ok { s with domain_min := [roundToDecimals d v.1,
          roundToDecimals d v.2.1, roundToDecimals d v.2.2] } := by
  have hform : str "DOMAIN_MIN " ++ formatArray d v
      = str "DOMAIN_MIN" ++ ' ' :: formatArray d v := by
    rw [show str "DOMAIN_MIN " = str "DOMAIN_MIN" ++ [' '] from rfl]
    simp
  rw [hform, processLine_directive s (by decide) (by decide)
    (by intro c hc; injection hc with hc; subst hc; decide)
    (by unfold formatArray; simp)
    (getLast?_formatArray_not_WS d v)]
  rw [pySplit_formatArray]
  show (match parseFloatList [fmtFixed d v.1, fmtFixed d v.2.1, fmtFixed d v.2.2] with
    | Except.ok w => Except.ok { s with domain_min := w }
    | Except.error e => Except.error e) = _
  rw [parseFloatList_fmt3]

/-- The written `DOMAIN_MAX` line replaces `domain_max` with the three
rounded channel values. -/
theorem processLine_domain_max (s : ReadState) (d : ℕ) (v : Vec3) :
    processLine s (str "DOMAIN_MAX " ++ formatArray d v)
      = .ok { s with domain_max := [roundToDecimals d v.1,
          roundToDecimals d v.2.1, roundToDecimals d v.2.2] } := by
  have hform : str "DOMAIN_MAX " ++ formatArray d v
      = str "DOMAIN_MAX" ++ ' ' :: formatArray d v := by
    rw [show str "DOMAIN_MAX " = str "DOMAIN_MAX" ++ [' '] from rfl]
    simp
  rw [hform, processLine_directive s (by decide) (by decide)
    (by intro c hc; injection hc with hc; subst hc; decide)
    (by unfold formatArray; simp)
    (getLast?_formatArray_not_WS d v)]
  rw [pySplit_formatArray]
  show (match parseFloatList [fmtFixed d v.1, fmtFixed d v.2.1, fmtFixed d v.2.2] with
    | Except.ok w => Except.ok { s with domain_max := w }
    | Except.error e => Except.error e) = _
  rw [parseFloatList_fmt3]

theorem fmtFixed_ne_cons {d : ℕ} {q : ℚ} {x : Char} {xs : Str}
    (hx1 : x ≠ '-') (hx2 : x.toNat < 48 ∨ 57 < x.toNat) :
    fmtFixed d q ≠ x :: xs := by
  intro he
  have hh := head_fmtFixed d q x (by rw [he]; rfl)
  rcases hh with rfl | hdig
  · exact hx1 rfl
  · rw [digitVal_isSome_iff] at hdig
    omega

/-- A written data row is stacked verbatim (as its three tokens) onto the
data rows. -/
theorem processLine_data (s : ReadState) (d : ℕ) (v : Vec3) :
    processLine s (formatArray d v)
      = .ok { s with data := s.data
          ++ [[fmtFixed d v.1, fmtFixed d v.2.1, fmtFixed d v.2.2]] } := by
  have hfne : fmtFixed d v.1 ≠ [] := fmtFixed_ne_nil _ _
  obtain ⟨c0, t0', hf1⟩ : ∃ c0 t0', fmtFixed d v.1 = c0 :: t0' := by
    cases h : fmtFixed d v.1 with
    | nil => exact absurd h hfne
    | cons a as => exact ⟨a, as, rfl⟩
  have hc0 := head_fmtFixed d v.1 c0 (by rw [hf1]; rfl)
  have hc0ws : isWS c0 = false := by
    rcases hc0 with rfl | hdig
    · decide
    · exact not_isWS_of_digitVal hdig
  have hhead : (formatArray d v).head? = some c0 := by
    unfold formatArray
    rw [show fmtFixed d v.1 ++ ' ' :: fmtFixed d v.2.1 ++ ' ' :: fmtFixed d v.2.2
      = fmtFixed d v.1 ++ (' ' :: fmtFixed d v.2.1 ++ ' ' :: fmtFixed d v.2.2)
      from by simp]
    rw [List.head?_append_of_ne_nil _ hfne, hf1]
    rfl
  have hstrip : pyStrip (formatArray d v) = formatArray d v := by
    apply pyStrip_eq_self
    · intro c hc
      rw [hhead] at hc
      injection hc with hc
      subst hc
      exact hc0ws
    · exact getLast?_formatArray_not_WS d v
  have hfne2 : formatArray d v ≠ [] := by
    intro hcon
    have := congrArg List.head? hcon
    rw [hhead] at this
    simp at this
  have hheadD : (formatArray d v).headD ' ' = c0 := by
    rw [List.headD_eq_head?_getD, hhead]
    rfl
  have hhash : ¬((formatArray d v).headD ' ' = '#') := by
    rw [hheadD]
    rcases hc0 with rfl | hdig
    · decide
    · intro hcon
      rw [digitVal_isSome_iff, hcon] at hdig
      revert hdig
      decide
  unfold processLine
  rw [hstrip]
  rw [processStripped_split s (by simp [hfne2]) hhash (pySplit_formatArray d v)]
  unfold procTokens
  rw [if_neg (show ¬(fmtFixed d v.1 = str "TITLE") from
      fmtFixed_ne_cons (by decide) (by decide)),
    if_neg (show ¬(fmtFixed d v.1 = str "DOMAIN_MIN") from
      fmtFixed_ne_cons (by decide) (by decide)),
    if_neg (show ¬(fmtFixed d v.1 = str "DOMAIN_MAX") from
      fmtFixed_ne_cons (by decide) (by decide)),
    if_neg (show ¬(fmtFixed d v.1 = str "LUT_1D_SIZE") from
      fmtFixed_ne_cons (by decide) (by decide)),
    if_neg (show ¬(fmtFixed d v.1 = str "LUT_3D_SIZE") from
      fmtFixed_ne_cons (by decide) (by decide))]

/-! ## Scanning whole blocks of written lines -/

theorem scanLines_cons_ok {s s' : ReadState} {l : Str} (ls : List Str)
    (h : processLine s l = .ok s') :
    scanLines s (l :: ls) = scanLines s' ls := by
  have hc : scanLines s (l :: ls)
      = match processLine s l with
        | .ok s2 => scanLines s2 ls
        | .error e => .error e := rfl
  rw [hc, h]

theorem scanLines_cons_error {s : ReadState} {l : Str} {e : String}
    (ls : List Str) (h : processLine s l = .error e) :
    scanLines s (l :: ls) = .error e := by
  have hc : scanLines s (l :: ls)
      = match processLine s l with
        | .ok s2 => scanLines s2 ls
        | .error e2 => .error e2 := rfl
  rw [hc, h]

theorem scanLines_append_ok {s s1 : ReadState} (l1 l2 : List Str)
    (h : scanLines s l1 = .ok s1) :
    scanLines s (l1 ++ l2) = scanLines s1 l2 := by
  induction l1 generalizing s with
  | nil =>
    injection h with h
    rw [List.nil_append, h]
  | cons l ls ih =>
    rw [List.cons_append]
    cases hpl : processLine s l with
    | error e =>
      rw [scanLines_cons_error ls hpl] at h
      exact absurd h (by simp)
    | ok s' =>
      rw [scanLines_cons_ok ls hpl] at h
      rw [scanLines_cons_ok (ls ++ l2) hpl]
      exact ih h

/-- Scanning a block of written comment lines appends the comments. -/
theorem scanLines_comments (s : ReadState) (cs : List Str)
    (h : ∀ c ∈ cs, pyStrip c = c) :
    scanLines s (cs.map (fun c => str "# " ++ c))
      = .ok { s with comments := s.comments ++ cs } := by
  induction cs generalizing s with
  | nil => simp [scanLines]
  | cons c cs' ih =>
    rw [List.map_cons,
      scanLines_cons_ok _ (processLine_comment s (h c (List.mem_cons_self _ _))),
      ih _ (fun x hx => h x (List.mem_cons_of_mem _ hx))]
    simp


/-- Scanning a block of written data rows stacks their token triples. -/
theorem scanLines_rows (s : ReadState) (d : ℕ) (rows : List Vec3) :
    scanLines s (rows.map (formatArray d))
      = .ok { s with
          data := s.data ++ rows.map (fun v =>
            [fmtFixed d v.1, fmtFixed d v.2.1, fmtFixed d v.2.2]) } := by
  induction rows generalizing s with
  | nil => simp [scanLines]
  | cons v rows' ih =>
    rw [List.map_cons, scanLines_cons_ok _ (processLine_data s d v), ih]
    simp

/-! ## Scanning and finalizing a complete written file -/

theorem parseRows_fmtRows (d : ℕ) (rows : List Vec3) :
    parseRows (rows.map (fmtRow d)) = .ok (rows.map (roundRowQ d)) := by
  induction rows with
  | nil => rfl
  | cons v rows' ih =>
    show parseRows (fmtRow d v :: rows'.map (fmtRow d)) = _
    unfold parseRows
    rw [show parseFloatList (fmtRow d v)
        = .ok (roundRowQ d v) from parseFloatList_fmt3 d v, ih]
    rfl

theorem asFloatArray2D_fmtRows (d : ℕ) (rows : List Vec3) :
    asFloatArray2D (rows.map (fmtRow d)) = .ok (rows.map (roundRowQ d)) := by
  unfold asFloatArray2D
  rw [if_pos]
  · exact parseRows_fmtRows d rows
  · cases rows with
    | nil => rfl
    | cons v rows' =>
      rw [List.all_eq_true]
      intro r hr
      rcases List.mem_map.mp hr with ⟨w, hw, rfl⟩
      rfl

/-- Scanning all lines the writer emits for a `LUT3x1D`. -/
theorem scan_lines3x1D (title : Str) (l : LUT3x1D) (d : ℕ)
    (hcom : ∀ c ∈ l.comments, pyStrip c = c) :
    scanLines (initState title) (lines3x1D d l)
      = .ok { title := readBackTitle l.name
              domain_min := if l.domain = defaultDomain then [0, 0, 0]
                else roundRowQ d (l.domain.getD 0 (0, 0, 0))
              domain_max := if l.domain = defaultDomain then [1, 1, 1]
                else roundRowQ d (l.domain.getD 1 (0, 0, 0))
              dimensions := 2
              size := (l.table.length : ℤ)
              data := l.table.map (fmtRow d)
              comments := l.comments } := by
  have hshape : lines3x1D d l
      = (str "TITLE \"" ++ l.name ++ ['\"']) ::
        (l.comments.map (fun c => str "# " ++ c) ++
          ((str "LUT_1D_SIZE " ++ natDigits l.table.length) ::
            ((if l.domain = defaultDomain then []
              else [str "DOMAIN_MIN " ++ formatArray d (l.domain.getD 0 (0, 0, 0)),
                    str "DOMAIN_MAX " ++ formatArray d (l.domain.getD 1 (0, 0, 0))]) ++
              l.table.map (formatArray d)))) := by
    unfold lines3x1D
    simp
  rw [hshape,
    scanLines_cons_ok _ (processLine_title (initState title) l.name),
    scanLines_append_ok _ _ (scanLines_comments _ l.comments hcom),
    scanLines_cons_ok _ (processLine_size1D _ l.table.length)]
  by_cases hdef : l.domain = defaultDomain
  · rw [if_pos hdef, List.nil_append,
      show (l.table.map (formatArray d)) = l.table.map (formatArray d) from rfl,
      scanLines_rows _ d l.table]
    rw [if_pos hdef, if_pos hdef]
    rfl
  · rw [if_neg hdef, List.cons_append, List.cons_append,
      scanLines_cons_ok _ (processLine_domain_min _ d (l.domain.getD 0 (0, 0, 0))),
      scanLines_cons_ok _ (processLine_domain_max _ d (l.domain.getD 1 (0, 0, 0))),
      List.nil_append, scanLines_rows _ d l.table]
    rw [if_neg hdef, if_neg hdef]
    rfl

/-- Scanning all lines the writer emits for a `LUT3D`. -/
theorem scan_lines3D (title : Str) (l : LUT3D) (d : ℕ)
    (hcom : ∀ c ∈ l.comments, pyStrip c = c) :
    scanLines (initState title) (lines3D d l)
      = .ok { title := readBackTitle l.name
              domain_min := if l.domain = defaultDomain then [0, 0, 0]
                else roundRowQ d (l.domain.getD 0 (0, 0, 0))
              domain_max := if l.domain = defaultDomain then [1, 1, 1]
                else roundRowQ d (l.domain.getD 1 (0, 0, 0))
              dimensions := 3
              size := (l.size : ℤ)
              data := (flattenTable3D l.size l.tableFlat).map (fmtRow d)
              comments := l.comments } := by
  have hshape : lines3D d l
      = (str "TITLE \"" ++ l.name ++ ['\"']) ::
        (l.comments.map (fun c => str "# " ++ c) ++
          ((str "LUT_3D_SIZE " ++ natDigits l.size) ::
            ((if l.domain = defaultDomain then []
              else [str "DOMAIN_MIN " ++ formatArray d (l.domain.getD 0 (0, 0, 0)),
                    str "DOMAIN_MAX " ++ formatArray d (l.domain.getD 1 (0, 0, 0))]) ++
              (flattenTable3D l.size l.tableFlat).map (formatArray d)))) := by
    unfold lines3D
    simp
  rw [hshape,
    scanLines_cons_ok _ (processLine_title (initState title) l.name),
    scanLines_append_ok _ _ (scanLines_comments _ l.comments hcom),
    scanLines_cons_ok _ (processLine_size3D _ l.size)]
  by_cases hdef : l.domain = defaultDomain
  · rw [if_pos hdef, List.nil_append, scanLines_rows _ d _]
    rw [if_pos hdef, if_pos hdef]
    rfl
  · rw [if_neg hdef, List.cons_append, List.cons_append,
      scanLines_cons_ok _ (processLine_domain_min _ d (l.domain.getD 0 (0, 0, 0))),
      scanLines_cons_ok _ (processLine_domain_max _ d (l.domain.getD 1 (0, 0, 0))),
      List.nil_append, scanLines_rows _ d _]
    rw [if_neg hdef, if_neg hdef]
    rfl

theorem vstack2_len3 {a b : List ℚ} (ha : a.length = 3) (hb : b.length = 3) :
    vstack2 a b = .ok [a, b] := by
  unfold vstack2
  rw [if_pos (by rw [ha, hb])]

theorem length_roundRowQ (d : ℕ) (v : Vec3) : (roundRowQ d v).length = 3 := rfl

/-- The reader's output on the full 3x1D file the writer produced. -/
theorem read_lines3x1D (title : Str) (l : LUT3x1D) (d : ℕ)
    (hcom : ∀ c ∈ l.comments, pyStrip c = c) :
    read_LUT_IridasCube title (lines3x1D d l)
      = .ok (.lut3x1D (l.table.map (roundRowQ d)) (readBackTitle l.name)
          [if l.domain = defaultDomain then [0, 0, 0]
             else roundRowQ d (l.domain.getD 0 (0, 0, 0)),
           if l.domain = defaultDomain then [1, 1, 1]
             else roundRowQ d (l.domain.getD 1 (0, 0, 0))]
          l.comments) := by
  unfold read_LUT_IridasCube
  rw [scan_lines3x1D title l d hcom]
  show finalizeRead _ = _
  unfold finalizeRead
  rw [show asFloatArray2D (l.table.map (fmtRow d))
      = .ok (l.table.map (roundRowQ d)) from asFloatArray2D_fmtRows d l.table]
  show (if (2:ℕ) = 2 then _ else _) = _
  rw [if_pos rfl]
  by_cases hdef : l.domain = defaultDomain
  · rw [if_pos hdef, if_pos hdef, vstack2_len3 (by rfl) (by rfl)]
  · rw [if_neg hdef, if_neg hdef,
      vstack2_len3 (length_roundRowQ _ _) (length_roundRowQ _ _)]

theorem flattenTable3D_map (f : Vec3 → Vec3) {n : ℕ} (hn : 0 < n)
    {T : List Vec3} (hT : T.length = n ^ 3) :
    flattenTable3D n (T.map f) = (flattenTable3D n T).map f := by
  apply List.ext_getElem
  · simp [length_flattenTable3D]
  · intro i hi1 hi2
    rw [length_flattenTable3D] at hi1
    have hidx : (i % n) * n ^ 2 + (i / n % n) * n + i / n ^ 2 < n ^ 3 := by
      have h1 : i % n < n := Nat.mod_lt _ hn
      have h2 : i / n % n < n := Nat.mod_lt _ hn
      have h3 : i / n ^ 2 < n := div_pow_two_lt hn hi1
      nlinarith
    rw [List.getElem_map]
    unfold flattenTable3D
    rw [List.getElem_map, List.getElem_range, List.getElem_map, List.getElem_range]
    rw [getD_map_lt f (by omega) (0, 0, 0) (0, 0, 0)]

/-- The reader's output on the full 3D file the writer produced. -/
theorem read_lines3D (title : Str) (l : LUT3D) (d : ℕ)
    (hcom : ∀ c ∈ l.comments, pyStrip c = c) (hn : 0 < l.size)
    (hT : l.tableFlat.length = l.size ^ 3) :
    read_LUT_IridasCube title (lines3D d l)
      = .ok (.lut3D l.size (l.tableFlat.map (roundVec3 d)) (readBackTitle l.name)
          [if l.domain = defaultDomain then [0, 0, 0]
             else roundRowQ d (l.domain.getD 0 (0, 0, 0)),
           if l.domain = defaultDomain then [1, 1, 1]
             else roundRowQ d (l.domain.getD 1 (0, 0, 0))]
          l.comments) := by
  unfold read_LUT_IridasCube
  rw [scan_lines3D title l d hcom]
  show finalizeRead _ = _
  unfold finalizeRead
  rw [show asFloatArray2D ((flattenTable3D l.size l.tableFlat).map (fmtRow d))
      = .ok ((flattenTable3D l.size l.tableFlat).map (roundRowQ d)) from
      asFloatArray2D_fmtRows d _]
  show (if (3:ℕ) = 2 then _ else _) = _
  rw [if_neg (by omega)]
  have hcomm : (flattenTable3D l.size l.tableFlat).map (roundRowQ d)
      = (flattenTable3D l.size (l.tableFlat.map (roundVec3 d))).map vec3Row := by
    rw [flattenTable3D_map (roundVec3 d) hn hT, List.map_map]
    rfl
  rw [hcomm, reshape_flattenTable3D hn _ (by rw [List.length_map, hT])]
  have htn : ((l.size : ℤ)).toNat = l.size := Int.toNat_natCast _
  rw [htn]
  by_cases hdef : l.domain = defaultDomain
  · rw [if_pos hdef, if_pos hdef, vstack2_len3 (by rfl) (by rfl)]
  · rw [if_neg hdef, if_neg hdef,
      vstack2_len3 (length_roundRowQ _ _) (length_roundRowQ _ _)]

/-! ## The C8 scenario: size / domain directives and comments anywhere -/

/-- On any line that classifies as one of the C8 shapes, `processLine`
performs exactly the classified state update. -/
theorem processLine_c8 (s : ReadState) (line : Str) {k : C8Kind}
    (hk : c8Class line = k) (hbad : k ≠ C8Kind.bad) :
    processLine s line = .ok (c8Step s k) := by
  unfold processLine processStripped
  simp only [c8Class] at hk
  split at hk
  · rename_i h0
    rw [if_pos h0, ← hk]
    rfl
  · rename_i h0
    split at hk
    · rename_i h1
      rw [if_neg h0, if_pos h1, ← hk]
      rfl
    · rename_i h1
      rw [if_neg h0, if_neg h1]
      split at hk
      · exact absurd hk.symm hbad
      · rename_i t0 rest hsp
        unfold procTokens
        split at hk
        · exact absurd hk.symm hbad
        · rename_i hT
          rw [if_neg hT]
          split at hk
          · exact absurd hk.symm hbad
          · rename_i hDmin
            rw [if_neg hDmin]
            split at hk
            · rename_i hDmax
              rw [if_pos hDmax]
              rcases hpl : parseFloatList rest with e | v
              · rw [hpl] at hk
                exact absurd hk.symm hbad
              · rw [hpl] at hk
                have hk2 : (if v = [1, 2, 3] then C8Kind.dommax
                    else C8Kind.bad) = k := hk
                simp only [hpl]
                by_cases hv : v = [1, 2, 3]
                · rw [if_pos hv] at hk2
                  subst hv
                  rw [← hk2]
                  rfl
                · rw [if_neg hv] at hk2
                  exact absurd hk2.symm hbad
            · rename_i hDmax
              rw [if_neg hDmax]
              split at hk
              · rename_i h1d
                rw [if_pos h1d]
                rcases hrest : rest with _ | ⟨t, rest'⟩
                · rw [hrest] at hk
                  exact absurd hk.symm hbad
                · rw [hrest] at hk
                  have hk2 : (if parseIntToken t = some 3 then C8Kind.size1
                      else C8Kind.bad) = k := hk
                  simp only [hrest]
                  by_cases hpt : parseIntToken t = some 3
                  · rw [if_pos hpt] at hk2
                    simp only [hpt]
                    rw [← hk2]
                    rfl
                  · rw [if_neg hpt] at hk2
                    exact absurd hk2.symm hbad
              · rename_i h1d
                rw [if_neg h1d]
                split at hk
                · exact absurd hk.symm hbad
                · rename_i h3d
                  rw [if_neg h3d, ← hk]
                  rfl

/-- Scanning any block of C8-shaped lines: the directives set their
fields (idempotently, wherever they occur), the comments and data rows
accumulate in order. -/
theorem scan_c8 (lines : List Str) : ∀ s : ReadState,
    (∀ l ∈ lines, c8Class l ≠ C8Kind.bad) →
    scanLines s lines = .ok
      { title := s.title
        domain_min := s.domain_min
        domain_max := if (lines.map c8Class).any isDomMax then [1, 2, 3]
          else s.domain_max
        dimensions := if (lines.map c8Class).any isSize1 then 2
          else s.dimensions
        size := if (lines.map c8Class).any isSize1 then 3 else s.size
        data := s.data ++ c8Rows (lines.map c8Class)
        comments := s.comments ++ c8Comments (lines.map c8Class) } := by
  induction lines with
  | nil =>
    intro s h
    simp [scanLines, c8Rows, c8Comments]
  | cons l ls ih =>
    intro s h
    have hcl := processLine_c8 s l rfl (h l (List.mem_cons_self _ _))
    rw [scanLines_cons_ok _ hcl,
      ih _ (fun x hx => h x (List.mem_cons_of_mem _ hx))]
    cases hc : c8Class l <;>
      simp [hc, c8Step, c8Comments, c8Rows, isSize1, isDomMax,
        List.filterMap_cons] <;>
      try exact absurd hc (h l (List.mem_cons_self _ _))

/-! ## General token-level facts about the reader -/

/-- Whenever the stripped line splits into a token list whose first token
does not begin with `#`, `processLine` is exactly the token dispatch. -/
theorem processLine_tokens (s : ReadState) {line t0 : Str} {rest : List Str}
    (hsplit : pySplit (pyStrip line) = t0 :: rest)
    (ht0 : t0.headD ' ' ≠ '#') :
    processLine s line = procTokens s t0 rest := by
  rcases hl : pyStrip line with _ | ⟨c, l'⟩
  · rw [hl] at hsplit
    exact absurd hsplit (by simp [pySplit, pySplitAux])
  · rw [hl] at hsplit
    have hhash : ¬((c :: l').headD ' ' = '#') := by
      intro hcon
      rw [List.headD_cons] at hcon
      subst hcon
      rw [pySplit_cons_of_not_WS (by decide)] at hsplit
      injection hsplit with h1 h2
      rw [← h1] at ht0
      exact ht0 rfl
    unfold processLine
    rw [hl]
    exact processStripped_split s (by simp) hhash hsplit

theorem parseFloatList_length {ts : List Str} {qs : List ℚ}
    (h : parseFloatList ts = .ok qs) : qs.length = ts.length := by
  induction ts generalizing qs with
  | nil =>
    injection h with h
    rw [← h]
    rfl
  | cons t ts' ih =>
    unfold parseFloatList at h
    rcases hpf : parseFloat t with _ | q
    · rw [hpf] at h
      exact absurd h (by simp)
    · rw [hpf] at h
      rcases hrest : parseFloatList ts' with e | qs'
      · rw [hrest] at h
        exact absurd h (by simp)
      · rw [hrest] at h
        injection h with h
        rw [← h, List.length_cons, List.length_cons, ih hrest]

/-- With at least one decimal requested, a formatted value has exactly
that many fractional digits after its unique decimal point. -/
theorem hasFracDigits_fmtFixed {d : ℕ} (hd : 1 ≤ d) (q : ℚ) :
    hasFracDigits d (fmtFixed d q) := by
  set a := (round (q * (10 : ℚ) ^ d)).natAbs with ha
  have hfe : fmtFixed d q = (if round (q * (10 : ℚ) ^ d) < 0 then ['-'] else [])
      ++ (natDigits (a / 10 ^ d) ++ '.' :: padZeros d (natDigits (a % 10 ^ d))) := by
    unfold fmtFixed fmtUnsigned
    rw [if_neg (show ¬(d = 0) from by omega)]
  rw [hfe]
  refine ⟨(if round (q * (10 : ℚ) ^ d) < 0 then ['-'] else [])
      ++ natDigits (a / 10 ^ d), padZeros d (natDigits (a % 10 ^ d)), ?_, ?_, ?_, ?_⟩
  · rw [List.append_assoc]
  · apply length_padZeros_of_le
    apply length_natDigitsAux_le (Nat.lt_succ_self _) _ hd
    exact Nat.mod_lt _ (by positivity)
  · intro hmem
    rcases List.mem_append.mp hmem with h | h
    · split at h
      · rcases List.mem_singleton.mp h with h2
        exact absurd h2 (by decide)
      · simp at h
    · have := mem_natDigits_digit h
      rw [digitVal_isSome_iff] at this
      have h46 : ('.' : Char).toNat = 46 := rfl
      omega
  · intro c hc
    exact mem_padZeros_digit (fun y hy => mem_natDigits_digit hy) hc

/-! ## The claims -/

theorem writeResolved_ok_retval {b : BaseLUT} {d : ℕ} {out : WriteSuccess}
    (h : writeResolved b d = .ok out) : out.retval = true := by
  cases b with
  | lut1D l => exact Except.noConfusion h
  | lut3x1D l =>
    simp only [writeResolved] at h
    split at h
    · exact Except.noConfusion h
    · split at h
      · exact Except.noConfusion h
      · injection h with h
        rw [← h]
  | lut3D l =>
    simp only [writeResolved] at h
    split at h
    · exact Except.noConfusion h
    · split at h
      · exact Except.noConfusion h
      · injection h with h
        rw [← h]

/-- C10: whenever `write_LUT_IridasCube` returns normally it returns
`True`; the boolean success flag never takes the value `False`, so
failure is signalled exclusively by a raised exception. -/
theorem C10_write_returns_true (LUT : WLUT) (decimals : ℕ)
    (warns : List Str) (out : WriteSuccess)
    (h : write_LUT_IridasCube LUT decimals = (warns, .ok out)) :
    out.retval = true := by
  have hsnd := congrArg Prod.snd h
  cases LUT with
  | other => exact Except.noConfusion hsnd
  | base b =>
    cases b with
    | lut1D l =>
      exact writeResolved_ok_retval
        (show writeResolved (.lut3x1D l.toLUT3x1D) decimals = .ok out from hsnd)
    | lut3x1D l =>
      exact writeResolved_ok_retval
        (show writeResolved (.lut3x1D l) decimals = .ok out from hsnd)
    | lut3D l =>
      exact writeResolved_ok_retval
        (show writeResolved (.lut3D l) decimals = .ok out from hsnd)
  | sequence luts =>
    cases luts with
    | nil => exact Except.noConfusion hsnd
    | cons b rest =>
      exact writeResolved_ok_retval
        (show writeResolved b decimals = .ok out from hsnd)

/-- Witness for C10 at a concrete write. -/
theorem C10_write_returns_true_witness :
    WriteSuccess.retval ⟨lines3x1D 1 exLUT31, true⟩ = true :=
  C10_write_returns_true (.base (.lut3x1D exLUT31)) 1 []
    ⟨lines3x1D 1 exLUT31, true⟩ rfl

/-- C2: for every `n` in `[2, 256]` and every `(n, n, n, 3)` table, the
writer's Fortran-order flattening to `(n ^ 3, 3)` rows followed by the
reader's reshape reconstructs exactly the original array. -/
theorem C2_reshape_inverse (n : ℕ) (h1 : 2 ≤ n) (h2 : n ≤ 256)
    (T : List Vec3) (hT : T.length = n ^ 3) :
    reshapeTable3D ((flattenTable3D n T).map vec3Row) (n : ℤ) = .ok T :=
  reshape_flattenTable3D (by omega) T hT

/-- Witness for C2 at `n = 2` on a concrete table. -/
theorem C2_reshape_inverse_witness :
    (2 : ℕ) ≤ 2 ∧ (2 : ℕ) ≤ 256 ∧ exT8.length = 2 ^ 3 ∧
      reshapeTable3D ((flattenTable3D 2 exT8).map vec3Row) ((2 : ℕ) : ℤ)
        = .ok exT8 :=
  ⟨by decide, by decide, by decide,
    C2_reshape_inverse 2 (by decide) (by decide) exT8 (by decide)⟩

/-- C3: each writer contract violation raises an assertion-style error
(the model returns `.error` carrying the source's `attest` message, and
produces no output lines): a non-LUT value, an explicit domain on any
LUT kind, a 3x1D size outside `[2, 65536]`, a 3D size outside
`[2, 256]`. -/
theorem C3_writer_contract_errors (d : ℕ) :
    (write_LUT_IridasCube .other d).2
        = .error "\"LUT\" must be a 1D, 3x1D or 3D \"LUT\"!"
    ∧ (∀ l : LUT1D, l.is_domain_explicit = true →
        (write_LUT_IridasCube (.base (.lut1D l)) d).2
          = .error "\"LUT\" domain must be implicit!")
    ∧ (∀ l : LUT3x1D, l.is_domain_explicit = true →
        (write_LUT_IridasCube (.base (.lut3x1D l)) d).2
          = .error "\"LUT\" domain must be implicit!")
    ∧ (∀ l : LUT3D, l.is_domain_explicit = true →
        (write_LUT_IridasCube (.base (.lut3D l)) d).2
          = .error "\"LUT\" domain must be implicit!")
    ∧ (∀ l : LUT3x1D, l.is_domain_explicit = false →
        ¬(2 ≤ l.table.length ∧ l.table.length ≤ 65536) →
        (write_LUT_IridasCube (.base (.lut3x1D l)) d).2
          = .error "\"LUT\" size must be in domain [2, 65536]!")
    ∧ (∀ l : LUT3D, l.is_domain_explicit = false →
        ¬(2 ≤ l.size ∧ l.size ≤ 256) →
        (write_LUT_IridasCube (.base (.lut3D l)) d).2
          = .error "\"LUT\" size must be in domain [2, 256]!") := by
  refine ⟨rfl, ?_, ?_, ?_, ?_, ?_⟩
  · intro l hexp
    show writeResolved (.lut3x1D l.toLUT3x1D) d = _
    simp only [writeResolved]
    rw [if_pos]
    show l.toLUT3x1D.is_domain_explicit = true
    unfold LUT1D.toLUT3x1D LUT3x1D.is_domain_explicit
    unfold LUT1D.is_domain_explicit at hexp
    simpa using hexp
  · intro l hexp
    show writeResolved (.lut3x1D l) d = _
    simp only [writeResolved]
    rw [if_pos hexp]
  · intro l hexp
    show writeResolved (.lut3D l) d = _
    simp only [writeResolved]
    rw [if_pos hexp]
  · intro l hexp hsize
    show writeResolved (.lut3x1D l) d = _
    simp only [writeResolved]
    rw [if_neg (by rw [hexp]; simp), if_pos hsize]
  · intro l hexp hsize
    show writeResolved (.lut3D l) d = _
    simp only [writeResolved]
    rw [if_neg (by rw [hexp]; simp), if_pos hsize]

/-- Witness for C3: a 3x1D LUT of size 1 and a 3D LUT of size 257 (among
the other violations) each fail with the source's message. -/
theorem C3_writer_contract_errors_witness :
    (write_LUT_IridasCube (.base (.lut3x1D
        { name := str "S", table := [(0, 0, 0)], domain := defaultDomain,
          comments := [] })) 7).2
      = .error "\"LUT\" size must be in domain [2, 65536]!"
    ∧ (write_LUT_IridasCube (.base (.lut3D
        { name := str "B", size := 257, tableFlat := [], domain := defaultDomain,
          comments := [] })) 7).2
      = .error "\"LUT\" size must be in domain [2, 256]!" :=
  ⟨((C3_writer_contract_errors 7).2.2.2.2.1 _ (by decide) (by decide)),
   ((C3_writer_contract_errors 7).2.2.2.2.2 _ (by decide) (by decide))⟩

/-- C7 counterexample: the original claim fails — for the `LUTSequence`
holding a single 1D LUT, the call raises (the first element is used
without the 1D conversion, so the `isinstance` `attest` fails), while
writing the same 1D LUT alone succeeds. -/
theorem C7_counterexample :
    (write_LUT_IridasCube (.sequence [.lut1D exLUT1]) 1).2
        = .error "\"LUT\" must be a 1D, 3x1D or 3D \"LUT\"!"
      ∧ (write_LUT_IridasCube (.base (.lut1D exLUT1)) 1).2
        = .ok ⟨lines3x1D 1 exLUT1.toLUT3x1D, true⟩ := by
  constructor
  · rfl
  · show writeResolved (.lut3x1D exLUT1.toLUT3x1D) 1 = _
    simp only [writeResolved]
    rw [if_neg (by decide), if_neg (by decide)]

/-- C7 (amended): for every `LUTSequence` whose first element is a 3x1D
or 3D LUT, a warning is surfaced and processing continues on the first
element only: the outcome equals that of writing the first element
alone. -/
theorem C7_sequence_first_element (b : BaseLUT) (rest : List BaseLUT)
    (d : ℕ) (hb : ∀ l : LUT1D, b ≠ .lut1D l) :
    (write_LUT_IridasCube (.sequence (b :: rest)) d).2
        = (write_LUT_IridasCube (.base b) d).2
      ∧ (write_LUT_IridasCube (.sequence (b :: rest)) d).1 ≠ [] := by
  cases b with
  | lut1D l => exact absurd rfl (hb l)
  | lut3x1D l => exact ⟨rfl, by simp [write_LUT_IridasCube]⟩
  | lut3D l => exact ⟨rfl, by simp [write_LUT_IridasCube]⟩

/-- Witness for C7 at a concrete one-element sequence. -/
theorem C7_sequence_first_element_witness :
    (write_LUT_IridasCube (.sequence [.lut3x1D exLUT31]) 1).2
        = (write_LUT_IridasCube (.base (.lut3x1D exLUT31)) 1).2
      ∧ (write_LUT_IridasCube (.sequence [.lut3x1D exLUT31]) 1).1 ≠ [] :=
  C7_sequence_first_element (.lut3x1D exLUT31) [] 1
    (fun l h => BaseLUT.noConfusion h)

theorem head?_formatArray (d : ℕ) (v : Vec3) :
    ∃ c, (formatArray d v).head? = some c ∧
      (c = '-' ∨ (digitVal c).isSome = true) := by
  have hfne : fmtFixed d v.1 ≠ [] := fmtFixed_ne_nil _ _
  obtain ⟨c0, t0', hf1⟩ : ∃ c0 t0', fmtFixed d v.1 = c0 :: t0' := by
    cases h : fmtFixed d v.1 with
    | nil => exact absurd h hfne
    | cons a as => exact ⟨a, as, rfl⟩
  refine ⟨c0, ?_, head_fmtFixed d v.1 c0 (by rw [hf1]; rfl)⟩
  unfold formatArray
  rw [show fmtFixed d v.1 ++ ' ' :: fmtFixed d v.2.1 ++ ' ' :: fmtFixed d v.2.2
    = fmtFixed d v.1 ++ (' ' :: fmtFixed d v.2.1 ++ ' ' :: fmtFixed d v.2.2)
    from by simp]
  rw [List.head?_append_of_ne_nil _ hfne, hf1]
  rfl

theorem take10_ne_domain {ln : Str} {c : Char} (h : ln.head? = some c)
    (hc : c ≠ 'D') :
    ln.take 10 ≠ str "DOMAIN_MIN" ∧ ln.take 10 ≠ str "DOMAIN_MAX" := by
  rcases hl : ln with _ | ⟨x, t⟩
  · rw [hl] at h
    exact absurd h (by simp)
  · rw [hl] at h
    injection h with h
    subst h
    constructor
    · intro hcon
      have h2 := congrArg List.head? hcon
      have h3 : some x = some 'D' := h2
      injection h3 with h3
      exact hc h3
    · intro hcon
      have h2 := congrArg List.head? hcon
      have h3 : some x = some 'D' := h2
      injection h3 with h3
      exact hc h3

/-- Every line of a default-domain write begins with `'T'`, `'#'`, `'L'`,
`'-'` or a digit — never with `'D'`. -/
theorem mem_lines_head_ne_D {d : ℕ} {name : Str} {comments : List Str}
    {sizeTok : Str} {rows : List Vec3} {ln : Str}
    (hmem : ln ∈ (str "TITLE \"" ++ name ++ ['\"']) ::
      (comments.map (fun c => str "# " ++ c) ++
        ((str "LUT_" ++ sizeTok) :: rows.map (formatArray d)))) :
    ∃ c, ln.head? = some c ∧ c ≠ 'D' := by
  rcases List.mem_cons.mp hmem with rfl | hmem
  · refine ⟨'T', ?_, by decide⟩
    rw [show str "TITLE \"" = 'T' :: str "ITLE \"" from rfl, List.cons_append,
      List.cons_append]
    rfl
  rcases List.mem_append.mp hmem with hmem | hmem
  · rcases List.mem_map.mp hmem with ⟨c, hc, rfl⟩
    exact ⟨'#', rfl, by decide⟩
  rcases List.mem_cons.mp hmem with rfl | hmem
  · exact ⟨'L', rfl, by decide⟩
  · rcases List.mem_map.mp hmem with ⟨v, hv, rfl⟩
    obtain ⟨c, hc, hcase⟩ := head?_formatArray d v
    refine ⟨c, hc, ?_⟩
    rcases hcase with rfl | hdig
    · decide
    · rw [digitVal_isSome_iff] at hdig
      intro hcon
      rw [hcon] at hdig
      revert hdig
      decide

/-- The writer's lines for a 3x1D LUT, in token-block normal form. -/
theorem lines3x1D_shape (d : ℕ) (l : LUT3x1D) :
    lines3x1D d l
      = (str "TITLE \"" ++ l.name ++ ['\"']) ::
        (l.comments.map (fun c => str "# " ++ c) ++
          ((str "LUT_1D_SIZE " ++ natDigits l.table.length) ::
            ((if l.domain = defaultDomain then []
              else [str "DOMAIN_MIN " ++ formatArray d (l.domain.getD 0 (0, 0, 0)),
                    str "DOMAIN_MAX " ++ formatArray d (l.domain.getD 1 (0, 0, 0))]) ++
              l.table.map (formatArray d)))) := by
  unfold lines3x1D
  simp

/-- The writer's lines for a 3D LUT, in token-block normal form. -/
theorem lines3D_shape (d : ℕ) (l : LUT3D) :
    lines3D d l
      = (str "TITLE \"" ++ l.name ++ ['\"']) ::
        (l.comments.map (fun c => str "# " ++ c) ++
          ((str "LUT_3D_SIZE " ++ natDigits l.size) ::
            ((if l.domain = defaultDomain then []
              else [str "DOMAIN_MIN " ++ formatArray d (l.domain.getD 0 (0, 0, 0)),
                    str "DOMAIN_MAX " ++ formatArray d (l.domain.getD 1 (0, 0, 0))]) ++
              (flattenTable3D l.size l.tableFlat).map (formatArray d)))) := by
  unfold lines3D
  simp

theorem domain_lines_iff_3x1D (d : ℕ) (l : LUT3x1D) :
    (l.domain = defaultDomain →
      ∀ ln ∈ lines3x1D d l, ln.take 10 ≠ str "DOMAIN_MIN"
        ∧ ln.take 10 ≠ str "DOMAIN_MAX")
    ∧ (l.domain ≠ defaultDomain →
      (str "DOMAIN_MIN " ++ formatArray d (l.domain.getD 0 (0, 0, 0)))
          ∈ lines3x1D d l
        ∧ (str "DOMAIN_MAX " ++ formatArray d (l.domain.getD 1 (0, 0, 0)))
          ∈ lines3x1D d l) := by
  constructor
  · intro hdef ln hmem
    rw [lines3x1D_shape, if_pos hdef, List.nil_append] at hmem
    rw [show str "LUT_1D_SIZE " = str "LUT_" ++ str "1D_SIZE " from rfl,
      List.append_assoc] at hmem
    obtain ⟨c, hc, hcD⟩ := mem_lines_head_ne_D hmem
    exact take10_ne_domain hc hcD
  · intro hdef
    rw [lines3x1D_shape, if_neg hdef]
    constructor
    · refine List.mem_cons_of_mem _ (List.mem_append_right _ ?_)
      refine List.mem_cons_of_mem _ (List.mem_append_left _ ?_)
      exact List.mem_cons_self _ _
    · refine List.mem_cons_of_mem _ (List.mem_append_right _ ?_)
      refine List.mem_cons_of_mem _ (List.mem_append_left _ ?_)
      exact List.mem_cons_of_mem _ (List.mem_cons_self _ _)

theorem domain_lines_iff_3D (d : ℕ) (l : LUT3D) :
    (l.domain = defaultDomain →
      ∀ ln ∈ lines3D d l, ln.take 10 ≠ str "DOMAIN_MIN"
        ∧ ln.take 10 ≠ str "DOMAIN_MAX")
    ∧ (l.domain ≠ defaultDomain →
      (str "DOMAIN_MIN " ++ formatArray d (l.domain.getD 0 (0, 0, 0)))
          ∈ lines3D d l
        ∧ (str "DOMAIN_MAX " ++ formatArray d (l.domain.getD 1 (0, 0, 0)))
          ∈ lines3D d l) := by
  constructor
  · intro hdef ln hmem
    rw [lines3D_shape, if_pos hdef, List.nil_append] at hmem
    rw [show str "LUT_3D_SIZE " = str "LUT_" ++ str "3D_SIZE " from rfl,
      List.append_assoc] at hmem
    obtain ⟨c, hc, hcD⟩ := mem_lines_head_ne_D hmem
    exact take10_ne_domain hc hcD
  · intro hdef
    rw [lines3D_shape, if_neg hdef]
    constructor
    · refine List.mem_cons_of_mem _ (List.mem_append_right _ ?_)
      refine List.mem_cons_of_mem _ (List.mem_append_left _ ?_)
      exact List.mem_cons_self _ _
    · refine List.mem_cons_of_mem _ (List.mem_append_right _ ?_)
      refine List.mem_cons_of_mem _ (List.mem_append_left _ ?_)
      exact List.mem_cons_of_mem _ (List.mem_cons_self _ _)

theorem write_base31_ok_lines {l : LUT3x1D} {d : ℕ} {w : List Str}
    {out : WriteSuccess}
    (h : write_LUT_IridasCube (.base (.lut3x1D l)) d = (w, .ok out)) :
    out.lines = lines3x1D d l := by
  have hsnd : writeResolved (.lut3x1D l) d = .ok out := congrArg Prod.snd h
  simp only [writeResolved] at hsnd
  split at hsnd
  · exact Except.noConfusion hsnd
  · split at hsnd
    · exact Except.noConfusion hsnd
    · injection hsnd with hsnd
      rw [← hsnd]

theorem write_base3D_ok_lines {l : LUT3D} {d : ℕ} {w : List Str}
    {out : WriteSuccess}
    (h : write_LUT_IridasCube (.base (.lut3D l)) d = (w, .ok out)) :
    out.lines = lines3D d l := by
  have hsnd : writeResolved (.lut3D l) d = .ok out := congrArg Prod.snd h
  simp only [writeResolved] at hsnd
  split at hsnd
  · exact Except.noConfusion hsnd
  · split at hsnd
    · exact Except.noConfusion hsnd
    · injection hsnd with hsnd
      rw [← hsnd]

/-- C4: a successful write emits `DOMAIN_MIN` / `DOMAIN_MAX` lines iff
the LUT's domain differs from the default `[[0,0,0],[1,1,1]]`; when
emitted, the two lines carry the three channel values formatted by
`_format_array`, each with exactly `decimals` fractional digits (for
`decimals ≥ 1`). -/
theorem C4_domain_lines_iff (d : ℕ) :
    (∀ (l : LUT3x1D) (w : List Str) (out : WriteSuccess),
      write_LUT_IridasCube (.base (.lut3x1D l)) d = (w, .ok out) →
        (l.domain = defaultDomain →
          ∀ ln ∈ out.lines, ln.take 10 ≠ str "DOMAIN_MIN"
            ∧ ln.take 10 ≠ str "DOMAIN_MAX")
        ∧ (l.domain ≠ defaultDomain →
          (str "DOMAIN_MIN " ++ formatArray d (l.domain.getD 0 (0, 0, 0)))
              ∈ out.lines
            ∧ (str "DOMAIN_MAX " ++ formatArray d (l.domain.getD 1 (0, 0, 0)))
              ∈ out.lines))
    ∧ (∀ (l : LUT3D) (w : List Str) (out : WriteSuccess),
      write_LUT_IridasCube (.base (.lut3D l)) d = (w, .ok out) →
        (l.domain = defaultDomain →
          ∀ ln ∈ out.lines, ln.take 10 ≠ str "DOMAIN_MIN"
            ∧ ln.take 10 ≠ str "DOMAIN_MAX")
        ∧ (l.domain ≠ defaultDomain →
          (str "DOMAIN_MIN " ++ formatArray d (l.domain.getD 0 (0, 0, 0)))
              ∈ out.lines
            ∧ (str "DOMAIN_MAX " ++ formatArray d (l.domain.getD 1 (0, 0, 0)))
              ∈ out.lines))
    ∧ (∀ q : ℚ, 1 ≤ d → hasFracDigits d (fmtFixed d q)) := by
  refine ⟨?_, ?_, fun q hd => hasFracDigits_fmtFixed hd q⟩
  · intro l w out h
    rw [write_base31_ok_lines h]
    exact domain_lines_iff_3x1D d l
  · intro l w out h
    rw [write_base3D_ok_lines h]
    exact domain_lines_iff_3D d l

/-- Witness for C4 at a concrete non-default-domain write and a formatted
value. -/
theorem C4_domain_lines_iff_witness :
    ((str "DOMAIN_MIN " ++ formatArray 2 (exLUT31nd.domain.getD 0 (0, 0, 0)))
      ∈ lines3x1D 2 exLUT31nd)
    ∧ hasFracDigits 2 (fmtFixed 2 (1 / 2)) := by
  constructor
  · exact (((C4_domain_lines_iff 2).1 exLUT31nd []
      ⟨lines3x1D 2 exLUT31nd, true⟩ rfl).2 (by decide)).1
  · exact (C4_domain_lines_iff 2).2.2 (1 / 2) (by decide)

/-- C5 counterexample: on `DOMAIN_MIN 1 2 3 4` the reader parses all
four trailing tokens, so the resulting domain row has 4 entries, not 3;
and an end-to-end read with such a line fails at the domain stacking. -/
theorem C5_counterexample :
    scanLines (initState (str "t")) [str "DOMAIN_MIN 1 2 3 4"]
        = .ok { initState (str "t") with domain_min := [1, 2, 3, 4] }
      ∧ ([(1 : ℚ), 2, 3, 4].length = 3 → False)
      ∧ read_LUT_IridasCube (str "t")
          [str "LUT_1D_SIZE 2", str "DOMAIN_MIN 1 2 3 4",
           str "0 0 0", str "1 1 1"]
        = .error "ValueError: vstack shape mismatch" := by
  refine ⟨by decide, by decide, by decide⟩

/-- C5 (amended): a `DOMAIN_MIN` / `DOMAIN_MAX` directive parses all the
tokens that follow it as floats and replaces the corresponding domain
row with them, so the row has exactly as many entries as there were
trailing tokens (not always 3). -/
theorem C5_domain_tokens_all_parsed (s : ReadState) (line : Str)
    (rest : List Str) (qs : List ℚ) (hp : parseFloatList rest = .ok qs) :
    (pySplit (pyStrip line) = str "DOMAIN_MIN" :: rest →
      processLine s line = .ok { s with domain_min := qs })
    ∧ (pySplit (pyStrip line) = str "DOMAIN_MAX" :: rest →
      processLine s line = .ok { s with domain_max := qs })
    ∧ qs.length = rest.length := by
  refine ⟨?_, ?_, parseFloatList_length hp⟩
  · intro hsplit
    rw [processLine_tokens s hsplit (by decide)]
    unfold procTokens
    rw [if_neg (by decide), if_pos rfl, hp]
  · intro hsplit
    rw [processLine_tokens s hsplit (by decide)]
    unfold procTokens
    rw [if_neg (by decide), if_neg (by decide), if_pos rfl, hp]

/-- Witness for the amended C5 on a concrete 4-token directive. -/
theorem C5_domain_tokens_all_parsed_witness :
    processLine (initState (str "t")) (str "DOMAIN_MIN 1 2 3 4")
        = .ok { initState (str "t") with domain_min := [1, 2, 3, 4] }
      ∧ ([(1 : ℚ), 2, 3, 4].length
          = [str "1", str "2", str "3", str "4"].length) :=
  ⟨(C5_domain_tokens_all_parsed (initState (str "t"))
      (str "DOMAIN_MIN 1 2 3 4") [str "1", str "2", str "3", str "4"]
      [1, 2, 3, 4] (by decide)).1 (by decide),
   (C5_domain_tokens_all_parsed (initState (str "t"))
      (str "DOMAIN_MIN 1 2 3 4") [str "1", str "2", str "3", str "4"]
      [1, 2, 3, 4] (by decide)).2.2⟩

/-- C6 counterexample: on the unquoted line `TITLE Demo` the reader
produces the name `em` — the first and last characters are removed
unconditionally, not only surrounding quotes as the claim states. -/
theorem C6_counterexample :
    read_LUT_IridasCube (str "t")
        [str "TITLE Demo", str "LUT_1D_SIZE 2",
         str "0 0 0", str "1 1 1"]
      = .ok (.lut3x1D [[0, 0, 0], [1, 1, 1]] (str "em")
          [[0, 0, 0], [1, 1, 1]] [])
    ∧ str "em" ≠ titleSpec [str "Demo"] := by
  refine ⟨by decide, by decide⟩

/-- C6 (amended): on a `TITLE` line the name becomes the remaining
tokens joined by single spaces with the first and last characters of the
joined string removed, whether or not they are quotes. -/
theorem C6_title_drops_first_last (s : ReadState) (line : Str)
    (rest : List Str)
    (hsplit : pySplit (pyStrip line) = str "TITLE" :: rest) :
    processLine s line = .ok { s with title := dropFirstLast (joinSpace rest) } := by
  rw [processLine_tokens s hsplit (by decide)]
  unfold procTokens
  rw [if_pos rfl]

/-- Witness for the amended C6 on the unquoted `TITLE Demo` line. -/
theorem C6_title_drops_first_last_witness :
    processLine (initState (str "t")) (str "TITLE Demo")
      = .ok { initState (str "t")
          with title := dropFirstLast (joinSpace [str "Demo"]) } :=
  C6_title_drops_first_last (initState (str "t")) (str "TITLE Demo")
    [str "Demo"] (by decide)

theorem parseFloatList_error_of_bad {row : List Str} {t : Str}
    (ht : t ∈ row) (hpf : parseFloat t = none) :
    ∃ e, parseFloatList row = .error e := by
  induction row with
  | nil => exact absurd ht (List.not_mem_nil t)
  | cons t2 ts ih =>
    unfold parseFloatList
    rcases List.mem_cons.mp ht with rfl | ht2
    · rw [hpf]
      exact ⟨_, rfl⟩
    · rcases hpf2 : parseFloat t2 with _ | q
      · exact ⟨_, rfl⟩
      · obtain ⟨e2, he2⟩ := ih ht2
        rw [he2]
        exact ⟨e2, rfl⟩

theorem parseRows_error_of_bad {data : List (List Str)} {row : List Str}
    (hrow : row ∈ data) (hfl : ∃ e, parseFloatList row = .error e) :
    ∃ e, parseRows data = .error e := by
  induction data with
  | nil => exact absurd hrow (List.not_mem_nil row)
  | cons r rs ih =>
    unfold parseRows
    rcases List.mem_cons.mp hrow with rfl | hrow2
    · obtain ⟨e2, he2⟩ := hfl
      rw [he2]
      exact ⟨e2, rfl⟩
    · rcases hr : parseFloatList r with e2 | qs
      · exact ⟨e2, rfl⟩
      · obtain ⟨e3, he3⟩ := ih hrow2
        rw [he3]
        exact ⟨e3, rfl⟩

theorem asFloatArray2D_error (data : List (List Str))
    (hbad : (∃ row ∈ data, ∃ t ∈ row, parseFloat t = none)
      ∨ ¬(data.all (fun r => r.length = (data.headD []).length) = true)) :
    ∃ e, asFloatArray2D data = .error e := by
  unfold asFloatArray2D
  rcases hbad with ⟨row, hrow, t, ht, hpf⟩ | hrect
  · by_cases hr : data.all (fun r => r.length = (data.headD []).length) = true
    · rw [if_pos hr]
      exact parseRows_error_of_bad hrow (parseFloatList_error_of_bad ht hpf)
    · rw [if_neg hr]
      exact ⟨_, rfl⟩
  · rw [if_neg hrect]
    exact ⟨_, rfl⟩

/-- C9: reading is all-or-nothing — whenever the scan succeeds but the
stacked data rows contain a malformed numeric token or are not
rectangular, `read_LUT_IridasCube` raises and returns no LUT. -/
theorem C9_reader_all_or_nothing (title : Str) (lines : List Str)
    (s : ReadState) (hscan : scanLines (initState title) lines = .ok s)
    (hbad : (∃ row ∈ s.data, ∃ t ∈ row, parseFloat t = none)
      ∨ ¬(s.data.all (fun r => r.length = (s.data.headD []).length) = true)) :
    ∃ e, read_LUT_IridasCube title lines = .error e := by
  unfold read_LUT_IridasCube
  rw [hscan]
  show ∃ e, finalizeRead s = .error e
  obtain ⟨e, he⟩ := asFloatArray2D_error s.data hbad
  unfold finalizeRead
  rw [he]
  exact ⟨e, rfl⟩

/-- Witness for C9 on a file with a malformed data token. -/
theorem C9_reader_all_or_nothing_witness :
    scanLines (initState (str "t")) [str "LUT_1D_SIZE 2", str "0 0 x"]
        = .ok ⟨str "t", [0, 0, 0], [1, 1, 1], 2, 2,
            [[str "0", str "0", str "x"]], []⟩
      ∧ ∃ e, read_LUT_IridasCube (str "t") [str "LUT_1D_SIZE 2", str "0 0 x"]
          = .error e :=
  ⟨by decide,
   C9_reader_all_or_nothing (str "t") [str "LUT_1D_SIZE 2", str "0 0 x"]
     ⟨str "t", [0, 0, 0], [1, 1, 1], 2, 2,
       [[str "0", str "0", str "x"]], []⟩
     (by decide)
     (Or.inl ⟨[str "0", str "0", str "x"], by decide, str "x", by decide,
       by decide⟩)⟩

/-! ## Tolerance facts for the round-trip claim -/

theorem close_refl (d : ℕ) (x : ℚ) : close d x x := by
  unfold close
  rw [sub_self, abs_zero]
  positivity

theorem rowClose_roundRowQ (d : ℕ) (v : Vec3) : rowClose d (roundRowQ d v) v :=
  ⟨_, _, _, rfl, roundToDecimals_close d _, roundToDecimals_close d _,
    roundToDecimals_close d _⟩

theorem vecClose_roundVec3 (d : ℕ) (v : Vec3) : vecClose d (roundVec3 d v) v :=
  ⟨roundToDecimals_close d _, roundToDecimals_close d _, roundToDecimals_close d _⟩

theorem forall2_map_left {α β : Type} (R : β → α → Prop) (f : α → β)
    (L : List α) (h : ∀ a ∈ L, R (f a) a) : List.Forall₂ R (L.map f) L := by
  induction L with
  | nil => exact List.Forall₂.nil
  | cons a as ih =>
    exact List.Forall₂.cons (h a (List.mem_cons_self _ _))
      (ih fun x hx => h x (List.mem_cons_of_mem _ hx))

theorem forall2_domain_rows (d : ℕ) (dom : List Vec3) (hlen : dom.length = 2) :
    List.Forall₂ (rowClose d)
      [if dom = defaultDomain then [0, 0, 0]
         else roundRowQ d (dom.getD 0 (0, 0, 0)),
       if dom = defaultDomain then [1, 1, 1]
         else roundRowQ d (dom.getD 1 (0, 0, 0))] dom := by
  obtain ⟨v0, v1, hv⟩ := List.length_eq_two.mp hlen
  by_cases hdef : dom = defaultDomain
  · rw [if_pos hdef, if_pos hdef, hdef]
    exact List.Forall₂.cons ⟨0, 0, 0, rfl, close_refl d 0, close_refl d 0, close_refl d 0⟩
      (List.Forall₂.cons ⟨1, 1, 1, rfl, close_refl d 1, close_refl d 1, close_refl d 1⟩
        List.Forall₂.nil)
  · rw [if_neg hdef, if_neg hdef, hv]
    show List.Forall₂ (rowClose d) [roundRowQ d v0, roundRowQ d v1] [v0, v1]
    exact List.Forall₂.cons (rowClose_roundRowQ d v0)
      (List.Forall₂.cons (rowClose_roundRowQ d v1) List.Forall₂.nil)

/-- C8: on any input file whose lines classify as the scenario's shapes
(blank, comment, `LUT_1D_SIZE 3`, `DOMAIN_MAX 1 2 3`, data row) and which
contains the size directive, the domain directive and exactly three data
rows of three parseable floats each, the reader returns a 3x1D LUT with
3 table rows (hence size 3), domain `[[0,0,0],[1,2,3]]`, and every
comment line collected into `comments` in original relative order. -/
theorem C8_reader_scenario (title : Str) (lines : List Str)
    (r1 r2 r3 : List Str) (v1 v2 v3 : List ℚ)
    (hgood : ∀ l ∈ lines, c8Class l ≠ C8Kind.bad)
    (hsize : (lines.map c8Class).any isSize1 = true)
    (hdom : (lines.map c8Class).any isDomMax = true)
    (hrows : c8Rows (lines.map c8Class) = [r1, r2, r3])
    (h1 : parseFloatList r1 = .ok v1) (h2 : parseFloatList r2 = .ok v2)
    (h3 : parseFloatList r3 = .ok v3)
    (hl1 : r1.length = 3) (hl2 : r2.length = 3) (hl3 : r3.length = 3) :
    read_LUT_IridasCube title lines
      = .ok (.lut3x1D [v1, v2, v3] title [[0, 0, 0], [1, 2, 3]]
          (c8Comments (lines.map c8Class))) := by
  unfold read_LUT_IridasCube
  rw [scan_c8 lines (initState title) hgood, hsize, hdom, hrows]
  show finalizeRead _ = _
  unfold finalizeRead
  have hrect : asFloatArray2D ((initState title).data ++ [r1, r2, r3])
      = .ok [v1, v2, v3] := by
    show asFloatArray2D [r1, r2, r3] = .ok [v1, v2, v3]
    unfold asFloatArray2D
    rw [if_pos (by simp [hl1, hl2, hl3])]
    unfold parseRows
    rw [h1]
    unfold parseRows
    rw [h2]
    unfold parseRows
    rw [h3]
    rfl
  rw [hrect]
  show (if (2 : ℕ) = 2 then _ else _) = _
  rw [if_pos rfl, vstack2_len3 (by rfl) (by rfl)]
  rfl

/-- Witness for C8 on a concrete file with an interspersed comment. -/
theorem C8_reader_scenario_witness :
    read_LUT_IridasCube (str "t")
        [str "LUT_1D_SIZE 3", str "# Comments can go anywhere",
         str "DOMAIN_MAX 1 2 3", str "0 0 0", str "1 1 1", str "2 2 2"]
      = .ok (.lut3x1D [[0, 0, 0], [1, 1, 1], [2, 2, 2]] (str "t")
          [[0, 0, 0], [1, 2, 3]] [str "Comments can go anywhere"]) := by
  rw [C8_reader_scenario (str "t")
      [str "LUT_1D_SIZE 3", str "# Comments can go anywhere",
       str "DOMAIN_MAX 1 2 3", str "0 0 0", str "1 1 1", str "2 2 2"]
      [str "0", str "0", str "0"] [str "1", str "1", str "1"]
      [str "2", str "2", str "2"] [0, 0, 0] [1, 1, 1] [2, 2, 2]
      (by decide) (by decide) (by decide) (by decide) (by decide) (by decide)
      (by decide) (by decide) (by decide) (by decide)]
  decide

theorem fmtFixed0_zero : fmtFixed 0 0 = str "0" := by
  unfold fmtFixed
  rw [show (0 : ℚ) * (10 : ℚ) ^ (0 : ℕ) = 0 by norm_num, round_zero]
  decide

theorem fmtFixed0_one : fmtFixed 0 1 = str "1" := by
  unfold fmtFixed
  rw [show (1 : ℚ) * (10 : ℚ) ^ (0 : ℕ) = 1 by norm_num, round_one]
  decide

theorem lines_exLUT31c :
    lines3x1D 0 exLUT31c
      = [str "TITLE \x22T\x22", str "# c ", str "LUT_1D_SIZE 2",
         str "0 0 0", str "1 1 1"] := by
  have ht : exLUT31c.table = [(0, 0, 0), (1, 1, 1)] := rfl
  have hn : exLUT31c.name = str "T" := rfl
  have hc : exLUT31c.comments = [str "c "] := rfl
  have hd : exLUT31c.domain = defaultDomain := rfl
  unfold lines3x1D
  rw [ht, hn, hc, hd, if_pos rfl]
  simp only [List.map_cons, List.map_nil, formatArray, fmtFixed0_zero,
    fmtFixed0_one]
  decide

/-- C1 counterexample: `exLUT31c` is a 3x1D LUT with implicit domain and
size 2 (within the format limits) whose single comment carries a
trailing space; writing it and reading the file back succeeds but
returns the comment with the trailing space stripped, so the round-trip
does not preserve the comments. -/
theorem C1_counterexample :
    (write_LUT_IridasCube (.base (.lut3x1D exLUT31c)) 0).2
        = .ok ⟨lines3x1D 0 exLUT31c, true⟩
    ∧ read_LUT_IridasCube (str "t") (lines3x1D 0 exLUT31c)
        = .ok (.lut3x1D [[0, 0, 0], [1, 1, 1]] (str "T")
            [[0, 0, 0], [1, 1, 1]] [str "c"])
    ∧ [str "c"] ≠ exLUT31c.comments := by
  refine ⟨rfl, ?_, by decide⟩
  rw [lines_exLUT31c]
  decide

/-- C1 (amended): for a `LUT3x1D` or `LUT3D` with an implicit 2-row
domain, size within the format limits, and comments that are already
whitespace-stripped, writing with `decimals = d` and reading the lines
back yields a LUT of the same kind whose table and domain rows are
within half an ulp of the last written decimal (`1 / (2 * 10 ^ d)`) of
the original, channel by channel, and whose comments are exactly the
original comments in order. -/
theorem C1_roundtrip_tolerance (title : Str) (d : ℕ)
    (l1 : LUT3x1D) (l3 : LUT3D)
    (hc1 : ∀ c ∈ l1.comments, pyStrip c = c)
    (hd1 : l1.is_domain_explicit = false)
    (hs1 : 2 ≤ l1.table.length ∧ l1.table.length ≤ 65536)
    (hc3 : ∀ c ∈ l3.comments, pyStrip c = c)
    (hd3 : l3.is_domain_explicit = false)
    (hs3 : 2 ≤ l3.size ∧ l3.size ≤ 256)
    (hT3 : l3.tableFlat.length = l3.size ^ 3) :
    (∃ tbl dom,
      (write_LUT_IridasCube (.base (.lut3x1D l1)) d).2
          = .ok ⟨lines3x1D d l1, true⟩
      ∧ read_LUT_IridasCube title (lines3x1D d l1)
          = .ok (.lut3x1D tbl (readBackTitle l1.name) dom l1.comments)
      ∧ List.Forall₂ (rowClose d) tbl l1.table
      ∧ List.Forall₂ (rowClose d) dom l1.domain)
    ∧ (∃ tbl dom,
      (write_LUT_IridasCube (.base (.lut3D l3)) d).2
          = .ok ⟨lines3D d l3, true⟩
      ∧ read_LUT_IridasCube title (lines3D d l3)
          = .ok (.lut3D l3.size tbl (readBackTitle l3.name) dom l3.comments)
      ∧ List.Forall₂ (vecClose d) tbl l3.tableFlat
      ∧ List.Forall₂ (rowClose d) dom l3.domain) := by
  have hlen1 : l1.domain.length = 2 := by
    have h := hd1
    unfold LUT3x1D.is_domain_explicit at h
    simpa using h
  have hlen3 : l3.domain.length = 2 := by
    have h := hd3
    unfold LUT3D.is_domain_explicit at h
    simpa using h
  constructor
  · refine ⟨l1.table.map (roundRowQ d),
      [if l1.domain = defaultDomain then [0, 0, 0]
         else roundRowQ d (l1.domain.getD 0 (0, 0, 0)),
       if l1.domain = defaultDomain then [1, 1, 1]
         else roundRowQ d (l1.domain.getD 1 (0, 0, 0))],
      ?_, read_lines3x1D title l1 d hc1,
      forall2_map_left (rowClose d) (roundRowQ d) l1.table
        (fun v _ => rowClose_roundRowQ d v),
      forall2_domain_rows d l1.domain hlen1⟩
    show writeResolved (.lut3x1D l1) d = _
    simp [writeResolved, hd1, hs1.1, hs1.2]
  · refine ⟨l3.tableFlat.map (roundVec3 d),
      [if l3.domain = defaultDomain then [0, 0, 0]
         else roundRowQ d (l3.domain.getD 0 (0, 0, 0)),
       if l3.domain = defaultDomain then [1, 1, 1]
         else roundRowQ d (l3.domain.getD 1 (0, 0, 0))],
      ?_, read_lines3D title l3 d hc3 (by omega) hT3,
      forall2_map_left (vecClose d) (roundVec3 d) l3.tableFlat
        (fun v _ => vecClose_roundVec3 d v),
      forall2_domain_rows d l3.domain hlen3⟩
    show writeResolved (.lut3D l3) d = _
    simp [writeResolved, hd3, hs3.1, hs3.2]

/-- Witness for the amended C1 on a concrete 3x1D LUT and a concrete 3D
LUT, both with the default domain and `decimals = 0`. -/
theorem C1_roundtrip_tolerance_witness :
    ((∃ tbl dom,
      (write_LUT_IridasCube (.base (.lut3x1D exLUT31)) 0).2
          = .ok ⟨lines3x1D 0 exLUT31, true⟩
      ∧ read_LUT_IridasCube (str "t") (lines3x1D 0 exLUT31)
          = .ok (.lut3x1D tbl (readBackTitle exLUT31.name) dom exLUT31.comments)
      ∧ List.Forall₂ (rowClose 0) tbl exLUT31.table
      ∧ List.Forall₂ (rowClose 0) dom exLUT31.domain)
    ∧ (∃ tbl dom,
      (write_LUT_IridasCube (.base (.lut3D exLUT3D)) 0).2
          = .ok ⟨lines3D 0 exLUT3D, true⟩
      ∧ read_LUT_IridasCube (str "t") (lines3D 0 exLUT3D)
          = .ok (.lut3D exLUT3D.size tbl (readBackTitle exLUT3D.name) dom
              exLUT3D.comments)
      ∧ List.Forall₂ (vecClose 0) tbl exLUT3D.tableFlat
      ∧ List.Forall₂ (rowClose 0) dom exLUT3D.domain)) :=
  C1_roundtrip_tolerance (str "t") 0 exLUT31 exLUT3D
    (by decide) (by decide) (by decide) (by decide) (by decide) (by decide)
    (by decide)

end IridasCube
